import Mathlib

/-!
Verification development for the figma-to-html extension.

This file gives a shallow embedding of the pure/algorithmic core of the
repository (`src/services/tailwindMapper.ts`, `src/services/aiService.ts`,
`src/services/codeWriter.ts`, the Figma URL parser of
`src/services/figmaService.ts`, and the breakpoint helpers of
`src/commands/generateFromFigma.ts`) and proves properties of the embedded
definitions.  JavaScript numbers are modelled as exact rationals (all
arithmetic performed by the embedded code — comparison, absolute value,
halving — is exact on the inputs of interest), strings as Lean `String`s,
and thrown exceptions as `Except` errors.
-/

/-! ## Tailwind mapper (`src/services/tailwindMapper.ts`) -/

/-- `SPACING_SCALE_PX` (tailwindMapper.ts lines 9-11): the pixel values of the
spacing scale.  Note the array literal holds 24 entries although the comment
above it in the source (line 8) documents the full 34-step Tailwind scale. -/
def SPACING_SCALE_PX : List ℚ :=
[0, 2, 4, 6, 8, 10, 12, 14, 16, 20, 24, 28, 32, 36, 40, 44, 48, 52, 56, 60, 64, 72, 80, 96]

/-- `SPACING_UNITS` (tailwindMapper.ts lines 14-16): the 34 spacing unit labels. -/
def SPACING_UNITS : List String :=
["0", "0.5", "1", "1.5", "2", "2.5", "3", "3.5", "4", "5", "6", "7", "8", "9",
 "10", "11", "12", "14", "16", "20", "24", "28", "32", "36", "40", "44", "48",
 "52", "56", "60", "64", "72", "80", "96"]

/-- `TEXT_SIZE_SCALE` (tailwindMapper.ts lines 19-33) as insertion-ordered
key/value entries, matching the iteration order of `Object.entries`. -/
def TEXT_SIZE_SCALE : List (String × ℚ) :=
[("xs", 12), ("sm", 14), ("base", 16), ("lg", 18), ("xl", 20), ("2xl", 24),
 ("3xl", 30), ("4xl", 36), ("5xl", 48), ("6xl", 60), ("7xl", 72), ("8xl", 96),
 ("9xl", 128)]

/-- `RADIUS_SCALE` (tailwindMapper.ts lines 36-46) as insertion-ordered entries. -/
def RADIUS_SCALE : List (String × ℚ) :=
[("none", 0), ("sm", 2), ("DEFAULT", 4), ("md", 6), ("lg", 8), ("xl", 12),
 ("2xl", 16), ("3xl", 24), ("full", 9999)]

/-- `Math.abs` on exact rationals: `-x` for negative `x`, else `x`. -/
def jabs (x : ℚ) : ℚ := if x < 0 then -x else x

/-- `Math.max` on exact rationals. -/
def jmax (a b : ℚ) : ℚ := if a < b then b else a

theorem jabs_eq_abs (x : ℚ) : jabs x = |x| := by
  unfold jabs
  rcases lt_or_le x 0 with h | h
  · rw [if_pos h, abs_of_neg h]
  · rw [if_neg (not_lt.mpr h), abs_of_nonneg h]

theorem jmax_eq_max (a b : ℚ) : jmax a b = max a b := by
  unfold jmax
  rcases lt_or_le a b with h | h
  · rw [if_pos h, max_eq_right h.le]
  · rw [if_neg (not_lt.mpr h), max_eq_left h]

/-- The `while (left <= right)` binary-search loop of `findClosestIndex`
(tailwindMapper.ts lines 67-81).  `left`/`right` are JS numbers holding
integers, modelled as `Int`; `mid = Math.floor((left + right) / 2)` is floor
division (`Int.fdiv`).  The loop terminates because the window shrinks at each
step; it is run with fuel `scale.length + 1`, which exceeds the number of
iterations possible from the initial window (proved below).  Array reads
`scale[mid]` stay in bounds in every reachable state (also proved below); an
out-of-range read is modelled by the default `0`. -/
def bsLoop (value : ℚ) (scale : List ℚ) :
    Nat → Int → Int → Nat → ℚ → Nat × ℚ
  | 0, _, _, cI, cD => (cI, cD)
  | fuel + 1, left, right, cI, cD =>
    if left ≤ right then
      let mid := Int.fdiv (left + right) 2
      let d := jabs (scale.getD mid.toNat 0 - value)
      let cI2 := if d < cD then mid.toNat else cI
      let cD2 := if d < cD then d else cD
      if scale.getD mid.toNat 0 < value then
        bsLoop value scale fuel (mid + 1) right cI2 cD2
      else
        bsLoop value scale fuel left (mid - 1) cI2 cD2
    else (cI, cD)

/-- The neighbor re-check loop of `findClosestIndex` (tailwindMapper.ts lines
90-96): fold over the candidate indices, keeping the first minimum found
(strict `<` comparison). -/
def neighborFold (value : ℚ) (scale : List ℚ) :
    List Nat → Nat × ℚ → Nat × ℚ
  | [], acc => acc
  | i :: rest, (cI, cD) =>
    let d := jabs (scale.getD i 0 - value)
    if d < cD then neighborFold value scale rest (i, d)
    else neighborFold value scale rest (cI, cD)

/-- `findClosestIndex` (tailwindMapper.ts lines 52-99): binary search plus
neighbor scan; empty and singleton scales return 0, values at or below
`scale[0]` return 0, values at or above `scale[length-1]` return the last
index. -/
def findClosestIndex (value : ℚ) (scale : List ℚ) : Nat :=
  if scale.length = 0 then 0
  else if scale.length = 1 then 0
  else
    let right : Nat := scale.length - 1
    if value ≤ scale.getD 0 0 then 0
    else if scale.getD right 0 ≤ value then right
    else
      let r := bsLoop value scale (scale.length + 1) 0 (right : Int) 0
        (jabs (scale.getD 0 0 - value))
      let neighbors :=
        ([(r.1 : Int) - 1, (r.1 : Int), (r.1 : Int) + 1].filter
          (fun i => decide (0 ≤ i) && decide (i < (scale.length : Int)))).map Int.toNat
      (neighborFold value scale neighbors r).1

/-- The `for (const [key, scaleValue] of entries)` loop of `findClosestKey`
(tailwindMapper.ts lines 109-115). -/
def keyLoop (value : ℚ) : List (String × ℚ) → String → ℚ → String
  | [], k, _ => k
  | e :: rest, k, d =>
    if jabs (e.2 - value) < d then keyLoop value rest e.1 (jabs (e.2 - value))
    else keyLoop value rest k d

/-- `findClosestKey` (tailwindMapper.ts lines 104-118): start from the first
entry, then scan all entries keeping the first strict improvement. -/
def findClosestKey (value : ℚ) (scale : List (String × ℚ)) : String :=
  match scale with
  | [] => ""
  | e0 :: _ => keyLoop value scale e0.1 (jabs (e0.2 - value))

/-- `spacingToTailwind` (tailwindMapper.ts lines 126-136): strip the sign, map
the absolute value, re-attach a `-` marker for negative input. -/
def spacingToTailwind (px : ℚ) : String :=
  let absPx := jabs px
  let closestUnit := SPACING_UNITS.getD (findClosestIndex absPx SPACING_SCALE_PX) ""
  if px < 0 then "-" ++ closestUnit else closestUnit

/-- `fontSizeToTailwind` (tailwindMapper.ts lines 144-147). -/
def fontSizeToTailwind (px : ℚ) : String :=
  "text-" ++ findClosestKey px TEXT_SIZE_SCALE

/-- `radiusToTailwind` (tailwindMapper.ts lines 155-169). -/
def radiusToTailwind (px : ℚ) : String :=
  if 1000 ≤ px then "rounded-full"
  else
    let closestKey := findClosestKey px RADIUS_SCALE
    if closestKey = "DEFAULT" then "rounded"
    else "rounded-" ++ closestKey

/-- `findNearestWithTolerance` (tailwindMapper.ts lines 179-199): nearest scale
value, or `none` when the distance exceeds the tolerance (given, or by default
`max(closestValue * 0.5, 2)`). -/
def findNearestWithTolerance (value : ℚ) (scale : List ℚ)
    (tolerance : Option ℚ) : Option ℚ :=
  if scale.length = 0 then none
  else
    let closestValue := scale.getD (findClosestIndex value scale) 0
    let diff := jabs (closestValue - value)
    let defaultTolerance := jmax (closestValue * (1 / 2)) 2
    let maxDiff := tolerance.getD defaultTolerance
    if maxDiff < diff then none else some closestValue

/-! ### Helper lemmas about `jabs`, `jmax` and sorted scales -/

theorem jabs_nonneg (x : ℚ) : 0 ≤ jabs x := by
  unfold jabs
  split
  · linarith
  · linarith

theorem jabs_of_nonneg {x : ℚ} (h : 0 ≤ x) : jabs x = x := by
  unfold jabs
  rw [if_neg (not_lt.mpr h)]

theorem jabs_of_nonpos {x : ℚ} (h : x ≤ 0) : jabs x = -x := by
  unfold jabs
  rcases lt_or_eq_of_le h with h1 | h1
  · rw [if_pos h1]
  · subst h1
    norm_num

theorem two_le_jmax_two (a : ℚ) : 2 ≤ jmax a 2 := by
  unfold jmax
  split
  · exact le_refl 2
  · next h => linarith [not_lt.mp h]

/-- Monotonicity of reads from a `(· ≤ ·)`-pairwise (ascending) scale. -/
theorem getD_mono (scale : List ℚ) (hs : List.Pairwise (· ≤ ·) scale)
    {i j : Nat} (hij : i ≤ j) (hj : j < scale.length) :
    scale.getD i 0 ≤ scale.getD j 0 := by
  have hi : i < scale.length := lt_of_le_of_lt hij hj
  rw [List.getD_eq_getElem?_getD, List.getD_eq_getElem?_getD,
    List.getElem?_eq_getElem hi, List.getElem?_eq_getElem hj]
  rcases lt_or_eq_of_le hij with h1 | h1
  · exact List.pairwise_iff_getElem.mp hs i j hi hj h1
  · subst h1
    exact le_refl _

/-- The accumulator `(closestIndex, closestDiff)` is a valid index achieving a
globally minimal distance to `value`. -/
def NearestAcc (value : ℚ) (scale : List ℚ) (r : Nat × ℚ) : Prop :=
  r.1 < scale.length ∧ r.2 = jabs (scale.getD r.1 0 - value) ∧
  ∀ j, j < scale.length → r.2 ≤ jabs (scale.getD j 0 - value)

/-- Invariant proof for the binary-search loop: starting from a window
`[left, right]` whose outside has been classified (`hlow`/`hhigh`), with an
accumulator that dominates the elements just outside the window (`hA`/`hB`),
and enough fuel, the loop ends with a globally nearest accumulator. -/
theorem bsLoop_spec (value : ℚ) (scale : List ℚ)
    (hs : List.Pairwise (· ≤ ·) scale)
    (hlo : scale.getD 0 0 < value)
    (hhi : value < scale.getD (scale.length - 1) 0) :
    ∀ (fuel : Nat) (left right : Int) (cI : Nat) (cD : ℚ),
      0 ≤ left → left ≤ right + 1 → 0 ≤ right →
      right ≤ (scale.length : Int) - 1 →
      (∀ j : Nat, (j : Int) < left → scale.getD j 0 < value) →
      (∀ j : Nat, (right : Int) < (j : Int) → j < scale.length → value ≤ scale.getD j 0) →
      cI < scale.length →
      cD = jabs (scale.getD cI 0 - value) →
      (left = 0 ∨ cD ≤ jabs (scale.getD (left - 1).toNat 0 - value)) →
      (right = (scale.length : Int) - 1 ∨ cD ≤ jabs (scale.getD (right + 1).toNat 0 - value)) →
      right + 1 - left < (fuel : Int) →
      NearestAcc value scale (bsLoop value scale fuel left right cI cD) := by
  intro fuel
  induction fuel with
  | zero =>
    intro left right cI cD hl0 hlr1 hr0 hrn hlow hhigh hcI hcD hA hB hfuel
    exfalso
    push_cast at hfuel
    omega
  | succ fuel ih =>
    intro left right cI cD hl0 hlr1 hr0 hrn hlow hhigh hcI hcD hA hB hfuel
    rw [bsLoop]
    by_cases hlr : left ≤ right
    · rw [if_pos hlr]
      dsimp only
      have hn1 : 1 ≤ scale.length := by omega
      have hml : left ≤ Int.fdiv (left + right) 2 ∧ Int.fdiv (left + right) 2 ≤ right := by
        rw [Int.fdiv_eq_ediv _ (by norm_num)]
        omega
      set mid := Int.fdiv (left + right) 2 with hmid
      have hm0 : 0 ≤ mid := le_trans hl0 hml.1
      have hmn : mid.toNat < scale.length := by omega
      set d := jabs (scale.getD mid.toNat 0 - value) with hd_def
      have hnew_cI : (if d < cD then mid.toNat else cI) < scale.length := by
        split
        · exact hmn
        · exact hcI
      have hnew_cD : (if d < cD then d else cD) =
          jabs (scale.getD (if d < cD then mid.toNat else cI) 0 - value) := by
        split
        · rfl
        · exact hcD
      have hnew_le_d : (if d < cD then d else cD) ≤ d := by
        split
        · exact le_refl d
        · next h => exact not_lt.mp h
      have hnew_le_cD : (if d < cD then d else cD) ≤ cD := by
        split
        · next h => exact le_of_lt h
        · exact le_refl cD
      by_cases hcmp : scale.getD mid.toNat 0 < value
      · rw [if_pos hcmp]
        apply ih (mid + 1) right _ _ (by omega) (by omega) hr0 hrn
        · intro j hj
          rcases lt_or_le (j : Int) left with h | h
          · exact hlow j h
          · have hj_le : j ≤ mid.toNat := by omega
            exact lt_of_le_of_lt (getD_mono scale hs hj_le hmn) hcmp
        · exact hhigh
        · exact hnew_cI
        · exact hnew_cD
        · right
          have he : mid + 1 - 1 = mid := by ring
          rw [he]
          exact hnew_le_d
        · rcases hB with h | h
          · exact Or.inl h
          · exact Or.inr (le_trans hnew_le_cD h)
        · push_cast at hfuel
          omega
      · rw [if_neg hcmp]
        have hvm : value ≤ scale.getD mid.toNat 0 := not_lt.mp hcmp
        have hmid1 : 1 ≤ mid := by
          rcases eq_or_lt_of_le hm0 with h | h
          · exfalso
            have h0 : mid.toNat = 0 := by omega
            rw [h0] at hvm
            linarith
          · omega
        apply ih left (mid - 1) _ _ hl0 (by omega) (by omega) (by omega)
        · exact hlow
        · intro j hj hjn
          have hj2 : mid.toNat ≤ j := by omega
          exact le_trans hvm (getD_mono scale hs hj2 hjn)
        · exact hnew_cI
        · exact hnew_cD
        · rcases hA with h | h
          · exact Or.inl h
          · exact Or.inr (le_trans hnew_le_cD h)
        · right
          have he : mid - 1 + 1 = mid := by ring
          rw [he]
          exact hnew_le_d
        · push_cast at hfuel
          omega
    · rw [if_neg hlr]
      have hn1 : 1 ≤ scale.length := by omega
      have hAr : cD ≤ jabs (scale.getD right.toNat 0 - value) := by
        rcases hA with h | h
        · exfalso; omega
        · have he : left - 1 = right := by omega
          rwa [he] at h
      have hrneq : right ≠ (scale.length : Int) - 1 := by
        intro he
        have hj : ((scale.length - 1 : Nat) : Int) < left := by omega
        have h1 := hlow (scale.length - 1) hj
        linarith
      have hBr : cD ≤ jabs (scale.getD (right + 1).toNat 0 - value) :=
        hB.resolve_left hrneq
      have hrlt : right < (scale.length : Int) - 1 := lt_of_le_of_ne hrn hrneq
      refine ⟨hcI, hcD, ?_⟩
      intro j hjn
      rcases le_or_lt (j : Int) right with hj | hj
      · have hsjv : scale.getD j 0 < value := hlow j (by omega)
        have hsrv : scale.getD right.toNat 0 < value :=
          hlow right.toNat (by omega)
        have hmono : scale.getD j 0 ≤ scale.getD right.toNat 0 :=
          getD_mono scale hs (by omega) (by omega)
        calc cD ≤ jabs (scale.getD right.toNat 0 - value) := hAr
          _ = value - scale.getD right.toNat 0 := by
              rw [jabs_of_nonpos (by linarith)]; ring
          _ ≤ value - scale.getD j 0 := by linarith
          _ = jabs (scale.getD j 0 - value) := by
              rw [jabs_of_nonpos (by linarith)]; ring
      · have hsv : value ≤ scale.getD j 0 := hhigh j (by omega) hjn
        have hsl : value ≤ scale.getD (right + 1).toNat 0 :=
          hhigh (right + 1).toNat (by omega) (by omega)
        have hmono : scale.getD (right + 1).toNat 0 ≤ scale.getD j 0 :=
          getD_mono scale hs (by omega) hjn
        calc cD ≤ jabs (scale.getD (right + 1).toNat 0 - value) := hBr
          _ = scale.getD (right + 1).toNat 0 - value :=
              jabs_of_nonneg (by linarith)
          _ ≤ scale.getD j 0 - value := by linarith
          _ = jabs (scale.getD j 0 - value) := (jabs_of_nonneg (by linarith)).symm

/-- The neighbor scan never displaces an accumulator that is already globally
minimal: the strict `<` comparison fails at every in-range candidate. -/
theorem neighborFold_of_min (value : ℚ) (scale : List ℚ) :
    ∀ (l : List Nat) (acc : Nat × ℚ),
      (∀ i ∈ l, i < scale.length) →
      (∀ j, j < scale.length → acc.2 ≤ jabs (scale.getD j 0 - value)) →
      neighborFold value scale l acc = acc := by
  intro l
  induction l with
  | nil => intro acc _ _; rfl
  | cons i rest ihl =>
    intro acc hmem hmin
    obtain ⟨cI, cD⟩ := acc
    rw [neighborFold]
    rw [if_neg (not_lt.mpr (hmin i (hmem i (List.mem_cons_self i rest))))]
    exact ihl (cI, cD) (fun j hj => hmem j (List.mem_cons_of_mem i hj)) hmin

/-- `findClosestIndex` on a nonempty ascending scale returns an index whose
value has globally minimal absolute distance to `value`. -/
theorem findClosestIndex_min (value : ℚ) (scale : List ℚ)
    (hs : List.Pairwise (· ≤ ·) scale) (hne : 0 < scale.length) :
    findClosestIndex value scale < scale.length ∧
    ∀ j, j < scale.length →
      jabs (scale.getD (findClosestIndex value scale) 0 - value) ≤
        jabs (scale.getD j 0 - value) := by
  rw [findClosestIndex]
  rw [if_neg (by omega : ¬ scale.length = 0)]
  by_cases h1 : scale.length = 1
  · rw [if_pos h1]
    refine ⟨hne, ?_⟩
    intro j hj
    have : j = 0 := by omega
    subst this
    exact le_refl _
  · rw [if_neg h1]
    have h2 : 2 ≤ scale.length := by omega
    by_cases hlo : value ≤ scale.getD 0 0
    · rw [if_pos hlo]
      refine ⟨hne, ?_⟩
      intro j hj
      have hmono : scale.getD 0 0 ≤ scale.getD j 0 := getD_mono scale hs (by omega) hj
      rw [jabs_of_nonneg (by linarith), jabs_of_nonneg (by linarith)]
      linarith
    · rw [if_neg hlo]
      push_neg at hlo
      by_cases hhi : scale.getD (scale.length - 1) 0 ≤ value
      · rw [if_pos hhi]
        refine ⟨by omega, ?_⟩
        intro j hj
        have hmono : scale.getD j 0 ≤ scale.getD (scale.length - 1) 0 :=
          getD_mono scale hs (by omega) (by omega)
        rw [jabs_of_nonpos (by linarith), jabs_of_nonpos (by linarith)]
        linarith
      · rw [if_neg hhi]
        push_neg at hhi
        dsimp only
        set r := bsLoop value scale (scale.length + 1) 0 ((scale.length - 1 : Nat) : Int) 0
          (jabs (scale.getD 0 0 - value)) with hr
        have hacc : NearestAcc value scale r := by
          rw [hr]
          apply bsLoop_spec value scale hs hlo hhi (scale.length + 1) 0
            ((scale.length - 1 : Nat) : Int) 0 (jabs (scale.getD 0 0 - value))
          · exact le_refl 0
          · omega
          · omega
          · omega
          · intro j hj
            exfalso
            omega
          · intro j hj hjn
            exfalso
            omega
          · omega
          · rfl
          · exact Or.inl rfl
          · left
            omega
          · push_cast
            omega
        obtain ⟨hI, hD, hmin⟩ := hacc
        set nbrs := ([(r.1 : Int) - 1, (r.1 : Int), (r.1 : Int) + 1].filter
          (fun i => decide (0 ≤ i) && decide (i < (scale.length : Int)))).map Int.toNat with hnbrs
        have hmem : ∀ i ∈ nbrs, i < scale.length := by
          intro i hi
          rw [hnbrs, List.mem_map] at hi
          obtain ⟨x, hx, hxi⟩ := hi
          rw [List.mem_filter] at hx
          have hx2 := hx.2
          rw [Bool.and_eq_true, decide_eq_true_eq, decide_eq_true_eq] at hx2
          omega
        rw [neighborFold_of_min value scale nbrs r hmem hmin]
        refine ⟨hI, ?_⟩
        intro j hj
        rw [← hD]
        exact hmin j hj

/-- The key loop keeps the initial key unless some entry strictly improves on
the running best distance; when it does, the result is the first entry
achieving the global minimum below the initial threshold. -/
theorem keyLoop_spec (value : ℚ) :
    ∀ (rest : List (String × ℚ)) (k : String) (d : ℚ),
      (keyLoop value rest k d = k ∧ ∀ e ∈ rest, d ≤ jabs (e.2 - value)) ∨
      (∃ pre e post, rest = pre ++ e :: post ∧
        keyLoop value rest k d = e.1 ∧
        jabs (e.2 - value) < d ∧
        (∀ e2 ∈ rest, jabs (e.2 - value) ≤ jabs (e2.2 - value)) ∧
        (∀ e2 ∈ pre, jabs (e.2 - value) < jabs (e2.2 - value))) := by
  intro rest
  induction rest with
  | nil =>
    intro k d
    left
    exact ⟨rfl, by intro e he; cases he⟩
  | cons e0 rest ih =>
    intro k d
    rw [keyLoop]
    by_cases h0 : jabs (e0.2 - value) < d
    · rw [if_pos h0]
      rcases ih e0.1 (jabs (e0.2 - value)) with
        ⟨heq, hall⟩ | ⟨pre, e, post, hdec, heq, hlt, hmin, hpre⟩
      · right
        refine ⟨[], e0, rest, rfl, heq, h0, ?_, by intro e2 h; cases h⟩
        intro e2 he2
        rcases List.mem_cons.mp he2 with h | h
        · subst h; exact le_refl _
        · exact hall e2 h
      · right
        refine ⟨e0 :: pre, e, post, by rw [hdec, List.cons_append], heq, lt_trans hlt h0, ?_, ?_⟩
        · intro e2 he2
          rcases List.mem_cons.mp he2 with h | h
          · subst h; exact le_of_lt hlt
          · exact hmin e2 h
        · intro e2 he2
          rcases List.mem_cons.mp he2 with h | h
          · subst h; exact hlt
          · exact hpre e2 h
    · rw [if_neg h0]
      have h0l := not_lt.mp h0
      rcases ih k d with
        ⟨heq, hall⟩ | ⟨pre, e, post, hdec, heq, hlt, hmin, hpre⟩
      · left
        refine ⟨heq, ?_⟩
        intro e2 he2
        rcases List.mem_cons.mp he2 with h | h
        · subst h; exact h0l
        · exact hall e2 h
      · right
        refine ⟨e0 :: pre, e, post, by rw [hdec, List.cons_append], heq, hlt, ?_, ?_⟩
        · intro e2 he2
          rcases List.mem_cons.mp he2 with h | h
          · subst h; exact le_of_lt (lt_of_lt_of_le hlt h0l)
          · exact hmin e2 h
        · intro e2 he2
          rcases List.mem_cons.mp he2 with h | h
          · subst h; exact lt_of_lt_of_le hlt h0l
          · exact hpre e2 h

/-- `findClosestKey` returns the key of the first entry achieving the minimal
distance: every entry is at least as far, and every earlier entry is strictly
farther. -/
theorem findClosestKey_spec (value : ℚ) (scale : List (String × ℚ))
    (hne : scale ≠ []) :
    ∃ pre e post, scale = pre ++ e :: post ∧
      findClosestKey value scale = e.1 ∧
      (∀ e2 ∈ scale, jabs (e.2 - value) ≤ jabs (e2.2 - value)) ∧
      (∀ e2 ∈ pre, jabs (e.2 - value) < jabs (e2.2 - value)) := by
  match scale, hne with
  | e0 :: tail, _ =>
    rw [findClosestKey]
    rcases keyLoop_spec value (e0 :: tail) e0.1 (jabs (e0.2 - value)) with
      ⟨heq, hall⟩ | ⟨pre, e, post, hdec, heq, hlt, hmin, hpre⟩
    · exact ⟨[], e0, tail, rfl, heq, hall, by intro e2 h; cases h⟩
    · exact ⟨pre, e, post, hdec, heq, hmin, hpre⟩

theorem getD_strict_mono (scale : List ℚ) (hs : List.Pairwise (· < ·) scale)
    {i j : Nat} (hij : i < j) (hj : j < scale.length) :
    scale.getD i 0 < scale.getD j 0 := by
  have hi : i < scale.length := lt_trans hij hj
  rw [List.getD_eq_getElem?_getD, List.getD_eq_getElem?_getD,
    List.getElem?_eq_getElem hi, List.getElem?_eq_getElem hj]
  exact List.pairwise_iff_getElem.mp hs i j hi hj hij

/-- Low-boundary clamp (tailwindMapper.ts line 63): for any nonempty scale,
`value <= scale[0]` short-circuits to index 0. -/
theorem findClosestIndex_head (value : ℚ) (scale : List ℚ)
    (hne : 0 < scale.length) (h : value ≤ scale.getD 0 0) :
    findClosestIndex value scale = 0 := by
  rw [findClosestIndex]
  rw [if_neg (by omega : ¬ scale.length = 0)]
  by_cases h1 : scale.length = 1
  · rw [if_pos h1]
  · rw [if_neg h1]
    rw [if_pos h]

/-- High-boundary clamp (tailwindMapper.ts line 64): on a strictly ascending
scale, `value >= scale[length-1]` returns the last index. -/
theorem findClosestIndex_last (value : ℚ) (scale : List ℚ)
    (hs : List.Pairwise (· < ·) scale) (hne : 0 < scale.length)
    (h : scale.getD (scale.length - 1) 0 ≤ value) :
    findClosestIndex value scale = scale.length - 1 := by
  rw [findClosestIndex]
  rw [if_neg (by omega : ¬ scale.length = 0)]
  by_cases h1 : scale.length = 1
  · rw [if_pos h1, h1]
  · rw [if_neg h1]
    have h2 : 2 ≤ scale.length := by omega
    have hstrict : scale.getD 0 0 < scale.getD (scale.length - 1) 0 :=
      getD_strict_mono scale hs (by omega) (by omega)
    rw [if_neg (by intro hc; linarith)]
    rw [if_pos h]

theorem jabs_eq_zero {x : ℚ} (h : jabs x = 0) : x = 0 := by
  unfold jabs at h
  by_cases h0 : x < 0
  · rw [if_pos h0] at h; linarith
  · rwa [if_neg h0] at h

/-! ### Claim theorems for the mapper -/

/-- C3: the UtilityScale invariant is broken by the code: `SPACING_SCALE_PX`
has 24 entries while `SPACING_UNITS` has 34, so indices found over
`SPACING_SCALE_PX` do not select the label of the matched raw value (the
source file's own comment documents the full 34-step scale).  The rawValues
are ascending, but the 1:1 pairing fails: e.g. 56px (scale index 18) selects
label "16" although the documented Tailwind pairing for 56px is unit "14". -/
theorem c3_spacing_scale_invariant_breach :
    SPACING_SCALE_PX.length = 24 ∧ SPACING_UNITS.length = 34 ∧
    SPACING_SCALE_PX.length ≠ SPACING_UNITS.length ∧
    List.Pairwise (· < ·) SPACING_SCALE_PX ∧
    spacingToTailwind 56 = "16" := by
  refine ⟨rfl, rfl, by decide, ?_, ?_⟩
  · with_unfolding_all decide
  · with_unfolding_all decide

/-- C5 counterexample: at value 50 the spacing scale offers 48 (index 16) and
52 (index 17) at equal distance 2, and `findClosestIndex` returns the UPPER
index 17 — the claimed "lower index always wins" tie-break is false. -/
theorem c5_counterexample :
    findClosestIndex 50 SPACING_SCALE_PX = 17 ∧
    SPACING_SCALE_PX.getD 16 0 = 48 ∧ SPACING_SCALE_PX.getD 17 0 = 52 ∧
    jabs (48 - 50) = jabs (52 - 50) ∧ (17 : Nat) ≠ 16 := by
  refine ⟨?_, ?_, ?_, ?_, by norm_num⟩ <;> with_unfolding_all decide

/-- C5 (amended): `findClosestIndex` on an ascending scale always returns an
index of globally minimal absolute distance, but an exact tie may resolve to
either neighbor; `findClosestKey` does resolve ties to the earliest entry
(every earlier entry is strictly farther), and font size 19 against entries
18 and 20 yields the label for 18 (`text-lg`). -/
theorem c5_nearest_value_search :
    (∀ (value : ℚ) (scale : List ℚ),
      List.Pairwise (· ≤ ·) scale → 0 < scale.length →
      findClosestIndex value scale < scale.length ∧
      ∀ j, j < scale.length →
        jabs (scale.getD (findClosestIndex value scale) 0 - value) ≤
          jabs (scale.getD j 0 - value)) ∧
    (∀ (value : ℚ) (entries : List (String × ℚ)), entries ≠ [] →
      ∃ pre e post, entries = pre ++ e :: post ∧
        findClosestKey value entries = e.1 ∧
        (∀ e2 ∈ entries, jabs (e.2 - value) ≤ jabs (e2.2 - value)) ∧
        (∀ e2 ∈ pre, jabs (e.2 - value) < jabs (e2.2 - value))) ∧
    fontSizeToTailwind 19 = "text-lg" := by
  refine ⟨?_, ?_, ?_⟩
  · intro value scale hs hne
    exact findClosestIndex_min value scale hs hne
  · intro value entries hne
    exact findClosestKey_spec value entries hne
  · with_unfolding_all decide

theorem c5_witness :
    findClosestIndex 3 [(0 : ℚ), 2] < [(0 : ℚ), 2].length ∧
    ∀ j, j < [(0 : ℚ), 2].length →
      jabs (List.getD [(0 : ℚ), 2] (findClosestIndex 3 [(0 : ℚ), 2]) 0 - 3) ≤
        jabs (List.getD [(0 : ℚ), 2] j 0 - 3) :=
  c5_nearest_value_search.1 3 [(0 : ℚ), 2]
    (by with_unfolding_all decide) (by norm_num)

/-- C4 counterexample: with an explicitly negative tolerance argument, the
value 4 sits exactly on the spacing scale (index 2) and yet the function
returns the null sentinel, refuting "for v exactly equal to a scale entry the
exact entry is always returned regardless of tolerance". -/
theorem c4_counterexample :
    SPACING_SCALE_PX.getD 2 0 = 4 ∧
    findNearestWithTolerance 4 SPACING_SCALE_PX (some (-1)) = none := by
  constructor <;> with_unfolding_all decide

/-- C4 (amended): on a nonempty ascending scale, (a) any returned value is the
nearest scale value (globally minimal distance) and is within the effective
tolerance (the given tolerance, or by default `max(50% of the matched value,
2)`); (b) if the matched (minimal) distance exceeds the effective tolerance
the null sentinel is returned; (c) for `value` exactly on the scale the exact
entry is always returned provided a given tolerance is nonnegative (with no
tolerance given the default applies and the exact entry is always returned);
a negative explicit tolerance rejects even exact matches. -/
theorem c4_tolerance_gate (value : ℚ) (scale : List ℚ) (tol : Option ℚ)
    (hs : List.Pairwise (· ≤ ·) scale) (hne : 0 < scale.length) :
    (∀ r, findNearestWithTolerance value scale tol = some r →
      r = scale.getD (findClosestIndex value scale) 0 ∧
      (∀ j, j < scale.length →
        jabs (r - value) ≤ jabs (scale.getD j 0 - value)) ∧
      jabs (r - value) ≤ tol.getD (jmax (r * (1 / 2)) 2)) ∧
    (tol.getD (jmax (scale.getD (findClosestIndex value scale) 0 * (1 / 2)) 2) <
        jabs (scale.getD (findClosestIndex value scale) 0 - value) →
      findNearestWithTolerance value scale tol = none) ∧
    (∀ i, i < scale.length → scale.getD i 0 = value →
      (∀ t, tol = some t → 0 ≤ t) →
      findNearestWithTolerance value scale tol = some value) := by
  have hfm := findClosestIndex_min value scale hs hne
  rw [findNearestWithTolerance]
  rw [if_neg (by omega : ¬ scale.length = 0)]
  dsimp only
  refine ⟨?_, ?_, ?_⟩
  · intro r hr
    by_cases hcmp : tol.getD
        (jmax (scale.getD (findClosestIndex value scale) 0 * (1 / 2)) 2) <
        jabs (scale.getD (findClosestIndex value scale) 0 - value)
    · rw [if_pos hcmp] at hr
      cases hr
    · rw [if_neg hcmp] at hr
      injection hr with hr
      subst hr
      exact ⟨rfl, hfm.2, not_lt.mp hcmp⟩
  · intro h
    rw [if_pos h]
  · intro i hi hiv htol
    have h0 : jabs (scale.getD (findClosestIndex value scale) 0 - value) = 0 := by
      have h1 := hfm.2 i hi
      rw [hiv] at h1
      have h2 : jabs (value - value) = 0 := by
        rw [jabs_of_nonneg (by linarith)]
        ring
      rw [h2] at h1
      linarith [jabs_nonneg (scale.getD (findClosestIndex value scale) 0 - value)]
    have hcv : scale.getD (findClosestIndex value scale) 0 = value := by
      have := jabs_eq_zero h0
      linarith
    rw [h0, hcv]
    cases tol with
    | none =>
      rw [if_neg (by simp only [Option.getD]; linarith [two_le_jmax_two (value * (1 / 2))])]
    | some t =>
      have ht := htol t rfl
      rw [if_neg (by simp only [Option.getD]; linarith)]

theorem c4_witness :
    findNearestWithTolerance 2 [(0 : ℚ), 2] none = some 2 :=
  (c4_tolerance_gate 2 [(0 : ℚ), 2] none (by with_unfolding_all decide)
    (by norm_num)).2.2 1 (by norm_num) (by with_unfolding_all decide)
    (fun t h => by cases h)

/-- C6: boundary clamping.  For any nonempty scale, a value at or below the
first entry maps to index 0 (an unconditional short-circuit in the source);
on a strictly ascending scale a value at or above the last entry maps to the
last index; `spacingToTailwind` accordingly clamps to the label at index 0
(label "0") below and the label at the scale's last index above, with no
extrapolation. -/
theorem c6_boundary_clamp :
    (∀ (value : ℚ) (scale : List ℚ), 0 < scale.length →
      value ≤ scale.getD 0 0 → findClosestIndex value scale = 0) ∧
    (∀ (value : ℚ) (scale : List ℚ),
      List.Pairwise (· < ·) scale → 0 < scale.length →
      scale.getD (scale.length - 1) 0 ≤ value →
      findClosestIndex value scale = scale.length - 1) ∧
    (∀ v : ℚ, 96 ≤ v →
      spacingToTailwind v = SPACING_UNITS.getD (SPACING_SCALE_PX.length - 1) "") ∧
    spacingToTailwind 0 = SPACING_UNITS.getD 0 "" := by
  refine ⟨?_, ?_, ?_, ?_⟩
  · intro value scale hne h
    exact findClosestIndex_head value scale hne h
  · intro value scale hs hne h
    exact findClosestIndex_last value scale hs hne h
  · intro v hv
    rw [spacingToTailwind]
    rw [if_neg (by linarith : ¬ v < 0)]
    rw [jabs_of_nonneg (by linarith)]
    have h96 : SPACING_SCALE_PX.getD (SPACING_SCALE_PX.length - 1) 0 = 96 := by
      with_unfolding_all decide
    rw [findClosestIndex_last v SPACING_SCALE_PX (by with_unfolding_all decide)
      (by decide) (by rw [h96]; linarith)]
  · with_unfolding_all decide

theorem c6_witness :
    findClosestIndex 0 [(1 : ℚ), 3] = 0 ∧
    findClosestIndex 5 [(1 : ℚ), 3] = [(1 : ℚ), 3].length - 1 ∧
    spacingToTailwind 100 = "36" := by
  refine ⟨?_, ?_, ?_⟩
  · exact c6_boundary_clamp.1 0 [(1 : ℚ), 3] (by norm_num)
      (by with_unfolding_all decide)
  · exact c6_boundary_clamp.2.1 5 [(1 : ℚ), 3] (by with_unfolding_all decide)
      (by norm_num) (by with_unfolding_all decide)
  · rw [c6_boundary_clamp.2.2.1 100 (by norm_num)]
    with_unfolding_all decide

/-- C7 counterexample: the negation identity fails at 0 and at negative
inputs: `spacingToTailwind (-0) = "0" ≠ "-0"`, and for v = -4 the left side is
`"1"` while the claimed right side is `"--1"`. -/
theorem c7_counterexample :
    spacingToTailwind (-(0 : ℚ)) = "0" ∧
    "-" ++ spacingToTailwind (0 : ℚ) = "-0" ∧
    spacingToTailwind (-(-4 : ℚ)) = "1" ∧
    "-" ++ spacingToTailwind (-4 : ℚ) = "--1" ∧
    ("0" : String) ≠ "-0" ∧ ("1" : String) ≠ "--1" := by
  refine ⟨?_, ?_, ?_, ?_, ?_, ?_⟩ <;> with_unfolding_all decide

/-- C7 (amended): for strictly positive v, mapping -v equals mapping v with
the "-" sign marker re-attached. -/
theorem c7_negation_prefix (v : ℚ) (hv : 0 < v) :
    spacingToTailwind (-v) = "-" ++ spacingToTailwind v := by
  rw [spacingToTailwind, spacingToTailwind]
  have h1 : jabs (-v) = v := by
    rw [jabs]
    rw [if_pos (by linarith : -v < 0)]
    ring
  have h2 : jabs v = v := jabs_of_nonneg (le_of_lt hv)
  rw [h1, h2, if_pos (by linarith : -v < 0), if_neg (not_lt.mpr (le_of_lt hv))]

theorem c7_witness :
    spacingToTailwind (-4 : ℚ) = "-" ++ spacingToTailwind (4 : ℚ) :=
  c7_negation_prefix 4 (by norm_num)

/-! ## Output validator (`src/services/aiService.ts`, `validateJSXOutput`)

The validator tests a fixed set of JS regexes against the trimmed output.
Each regex used by the source is a concatenation of literal characters,
character classes and starred character classes (plus top-level alternation,
expanded into separate tests) — it is compiled 1:1 into a `List RAtom` below,
and `testR` implements `RegExp.prototype.test` (existence of a match at some
position, with full backtracking for the starred classes; greedy vs lazy
repetition does not affect existence). -/

/-- The single-quote character, written by code to keep source scanning
simple. -/
def squote : Char := Char.ofNat 39

/-- Backtick character. -/
def btick : Char := Char.ofNat 96

/-- Left and right curly brace characters. -/
def lbrace : Char := Char.ofNat 123

def rbrace : Char := Char.ofNat 125

/-- JS whitespace (the `\s` class and `String.prototype.trim`): ASCII
whitespace, NBSP, the Unicode space separators, line separators and BOM. -/
def jsWs (c : Char) : Bool :=
  c == '\x0b' || c == '\x0c' || c == '\t' || c == '\n' || c == '\r' || c == ' ' ||
  c == '\u00A0' || c == '\u1680' || ('\u2000' ≤ c && c ≤ '\u200A') ||
  c == '\u2028' || c == '\u2029' || c == '\u202F' || c == '\u205F' ||
  c == '\u3000' || c == '\uFEFF'

/-- `String.prototype.trim`. -/
def jsTrim (s : String) : String :=
  ⟨((s.data.dropWhile jsWs).reverse.dropWhile jsWs).reverse⟩

def isAsciiAlpha (c : Char) : Bool :=
  ('A' ≤ c && c ≤ 'Z') || ('a' ≤ c && c ≤ 'z')

def isAsciiAlnum (c : Char) : Bool :=
  isAsciiAlpha c || ('0' ≤ c && c ≤ '9')

/-- The `["']` class. -/
def isQuote (c : Char) : Bool := c == '"' || c == squote

/-- The `[^"']` class. -/
def notQuote (c : Char) : Bool := !(isQuote c)

/-- The `.` class of JS regexes without the `s` flag: anything but a line
terminator. -/
def jsDot (c : Char) : Bool :=
  !(c == '\n' || c == '\r' || c == '\u2028' || c == '\u2029')

/-- The `[:;]` class. -/
def colonSemi (c : Char) : Bool := c == ':' || c == ';'

/-- One compiled regex atom: a single character from a class, or zero-or-more
characters from a class. -/
inductive RAtom where
  | one : (Char → Bool) → RAtom
  | star : (Char → Bool) → RAtom

/-- Matching for a starred class followed by the rest of the pattern
(`next`): try consuming nothing, or one class character and repeat. -/
def starLoop (next : List Char → Bool) (p : Char → Bool) : List Char → Bool
  | [] => next []
  | c :: cs => next (c :: cs) || (p c && starLoop next p cs)

/-- `matchSeq pat s`: some prefix of `s` matches the atom sequence `pat`. -/
def matchSeq : List RAtom → List Char → Bool
  | [], _ => true
  | RAtom.one _ :: _, [] => false
  | RAtom.one p :: rest, c :: cs => p c && matchSeq rest cs
  | RAtom.star p :: rest, s => starLoop (fun t => matchSeq rest t) p s

/-- `RegExp.prototype.test`: the pattern matches starting at some position. -/
def existsMatch (pat : List RAtom) : List Char → Bool
  | [] => matchSeq pat []
  | c :: cs => matchSeq pat (c :: cs) || existsMatch pat cs

def testR (pat : List RAtom) (s : String) : Bool := existsMatch pat s.data

/-- A sequence of literal character atoms. -/
def lit (w : String) : List RAtom :=
  w.data.map (fun c => RAtom.one (fun x => x == c))

/-- A sequence of case-insensitive literal character atoms (for the `i`
flag). -/
def litCI (w : String) : List RAtom :=
  w.data.map (fun c => RAtom.one (fun x => x.toLower == c.toLower))

/-- `/<[a-zA-Z][a-zA-Z0-9]*(\s|>|\/)/` (aiService.ts line 217). -/
def jsxElementPat : List RAtom :=
  [RAtom.one (fun c => c == '<'), RAtom.one isAsciiAlpha,
   RAtom.star isAsciiAlnum,
   RAtom.one (fun c => jsWs c || c == '>' || c == '/')]

/-- `/style\s*=\s*\{[\s\S]*?\}/` (aiService.ts line 223). -/
def inlineStylePat : List RAtom :=
  lit "style" ++
  [RAtom.star jsWs, RAtom.one (fun c => c == '='), RAtom.star jsWs,
   RAtom.one (fun c => c == lbrace), RAtom.star (fun _ => true),
   RAtom.one (fun c => c == rbrace)]

/-- `/style\s*=\s*["'][^"']*["']/` (aiService.ts line 229). -/
def styleStringPat : List RAtom :=
  lit "style" ++
  [RAtom.star jsWs, RAtom.one (fun c => c == '='), RAtom.star jsWs,
   RAtom.one isQuote, RAtom.star notQuote, RAtom.one isQuote]

/-- `/<style[^>]*>[\s\S]*?<\/style>/i` (aiService.ts line 235). -/
def styleTagPat : List RAtom :=
  [RAtom.one (fun c => c == '<')] ++ litCI "style" ++
  [RAtom.star (fun c => !(c == '>')), RAtom.one (fun c => c == '>'),
   RAtom.star (fun _ => true),
   RAtom.one (fun c => c == '<'), RAtom.one (fun c => c == '/')] ++
  litCI "style" ++ [RAtom.one (fun c => c == '>')]

/-- First alternative of line 241: `styled\.[a-zA-Z]+`. -/
def styledDotPat : List RAtom :=
  lit "styled." ++ [RAtom.one isAsciiAlpha, RAtom.star isAsciiAlpha]

/-- Second alternative of line 241: ``css\s*` ``. -/
def cssBacktickPat : List RAtom :=
  lit "css" ++ [RAtom.star jsWs, RAtom.one (fun c => c == btick)]

/-- Third alternative of line 241: `@emotion`. -/
def emotionPat : List RAtom := lit "@emotion"

/-- Fourth alternative of line 241: `makeStyles`. -/
def makeStylesPat : List RAtom := lit "makeStyles"

/-- Fifth alternative of line 241: `styled\(`. -/
def styledParenPat : List RAtom := lit "styled("

/-- `/styled\.[a-zA-Z]+|css\s*`|@emotion|makeStyles|styled\(/` (line 241):
top-level alternation, tested alternative by alternative. -/
def cssInJsTest (s : String) : Bool :=
  testR styledDotPat s || testR cssBacktickPat s || testR emotionPat s ||
  testR makeStylesPat s || testR styledParenPat s

/-- `/className\s*=\s*["'][^"']*[:;]\s*[^"']*["']/` (aiService.ts line 247). -/
def classNamePat : List RAtom :=
  lit "className" ++
  [RAtom.star jsWs, RAtom.one (fun c => c == '='), RAtom.star jsWs,
   RAtom.one isQuote, RAtom.star notQuote, RAtom.one colonSemi,
   RAtom.star jsWs, RAtom.star notQuote, RAtom.one isQuote]

/-- `/import\s+['"].*\.css['"]/` (aiService.ts line 253). -/
def cssImportPat : List RAtom :=
  lit "import" ++
  [RAtom.one jsWs, RAtom.star jsWs, RAtom.one isQuote, RAtom.star jsDot] ++
  lit ".css" ++ [RAtom.one isQuote]

/-- `/import\s+.*\s+from\s+['"].*\.module\.css['"]/` (aiService.ts line 259). -/
def cssModulePat : List RAtom :=
  lit "import" ++
  [RAtom.one jsWs, RAtom.star jsWs, RAtom.star jsDot,
   RAtom.one jsWs, RAtom.star jsWs] ++
  lit "from" ++
  [RAtom.one jsWs, RAtom.star jsWs, RAtom.one isQuote, RAtom.star jsDot] ++
  lit ".module.css" ++ [RAtom.one isQuote]

/-- `/require\s*\(['"].*\.css['"]\)/` (aiService.ts line 265). -/
def requireCssPat : List RAtom :=
  lit "require" ++
  [RAtom.star jsWs, RAtom.one (fun c => c == '('),
   RAtom.one isQuote, RAtom.star jsDot] ++
  lit ".css" ++ [RAtom.one isQuote, RAtom.one (fun c => c == ')')]

/-- `/<[a-zA-Z]/` (aiService.ts line 271). -/
def openTagPat : List RAtom :=
  [RAtom.one (fun c => c == '<'), RAtom.one isAsciiAlpha]

/-- The distinct named violations thrown by `validateJSXOutput`, one per
`throw` site, in source order. -/
inductive Violation where
  | emptyOutput
  | noJsxElement
  | inlineStyleObject
  | inlineStyleString
  | styleTag
  | cssInJs
  | cssInClassName
  | cssImport
  | cssModule
  | requireCss
  | noOpeningTag
deriving DecidableEq

/-- `validateJSXOutput` (aiService.ts lines 208-277): the ordered, fail-closed
validation gate.  A thrown `Error` is modelled as `Except.error` with the
corresponding violation; surviving input is returned trimmed. -/
def validateJSXOutput (jsxCode : String) : Except Violation String :=
  let trimmed := jsTrim jsxCode
  if trimmed.data = [] then Except.error Violation.emptyOutput
  else if !(testR jsxElementPat trimmed) then Except.error Violation.noJsxElement
  else if testR inlineStylePat trimmed then Except.error Violation.inlineStyleObject
  else if testR styleStringPat trimmed then Except.error Violation.inlineStyleString
  else if testR styleTagPat trimmed then Except.error Violation.styleTag
  else if cssInJsTest trimmed then Except.error Violation.cssInJs
  else if testR classNamePat trimmed then Except.error Violation.cssInClassName
  else if testR cssImportPat trimmed then Except.error Violation.cssImport
  else if testR cssModulePat trimmed then Except.error Violation.cssModule
  else if testR requireCssPat trimmed then Except.error Violation.requireCss
  else if !(testR openTagPat trimmed) then Except.error Violation.noOpeningTag
  else Except.ok trimmed

/-! ### Matcher lemmas -/

theorem bool_true_of_not_not {b : Bool} (h : ¬ ((!b) = true)) : b = true := by
  cases b
  · simp at h
  · rfl

theorem bool_false_of_not {b : Bool} (h : ¬ (b = true)) : b = false := by
  cases b
  · rfl
  · simp at h

theorem starLoop_here (next : List Char → Bool) (p : Char → Bool)
    (s : List Char) (h : next s = true) : starLoop next p s = true := by
  cases s with
  | nil => exact h
  | cons c cs => simp [starLoop, h]

theorem starLoop_skip (next : List Char → Bool) (p : Char → Bool)
    (l s : List Char) (hl : ∀ c ∈ l, p c = true) (h : next s = true) :
    starLoop next p (l ++ s) = true := by
  induction l with
  | nil => simpa using starLoop_here next p s h
  | cons c ltl ihl =>
    rw [List.cons_append, starLoop]
    have hc : p c = true := hl c (List.mem_cons_self c ltl)
    rw [hc, ihl (fun x hx => hl x (List.mem_cons_of_mem c hx))]
    simp

theorem matchSeq_one (p : Char → Bool) (rest : List RAtom) (c : Char)
    (cs : List Char) (hc : p c = true) (h : matchSeq rest cs = true) :
    matchSeq (RAtom.one p :: rest) (c :: cs) = true := by
  rw [matchSeq, hc, h]
  rfl

theorem matchSeq_star (p : Char → Bool) (rest : List RAtom) (l s : List Char)
    (hl : ∀ c ∈ l, p c = true) (h : matchSeq rest s = true) :
    matchSeq (RAtom.star p :: rest) (l ++ s) = true := by
  rw [matchSeq]
  exact starLoop_skip _ p l s hl h

theorem matchSeq_star_nil (p : Char → Bool) (rest : List RAtom) (s : List Char)
    (h : matchSeq rest s = true) :
    matchSeq (RAtom.star p :: rest) s = true := by
  rw [matchSeq]
  exact starLoop_here _ p s h

theorem matchSeq_lit (w : List Char) (rest : List RAtom) (s : List Char)
    (h : matchSeq rest s = true) :
    matchSeq (w.map (fun c => RAtom.one (fun x => x == c)) ++ rest) (w ++ s)
      = true := by
  induction w with
  | nil => simpa using h
  | cons c wtl ih =>
    rw [List.map_cons, List.cons_append, List.cons_append]
    exact matchSeq_one _ _ c _ (by simp) ih

theorem existsMatch_append (pat : List RAtom) (l s : List Char)
    (h : matchSeq pat s = true) : existsMatch pat (l ++ s) = true := by
  induction l with
  | nil =>
    cases s with
    | nil => simpa [existsMatch] using h
    | cons c cs => rw [List.nil_append, existsMatch, h]; rfl
  | cons c ltl ih =>
    rw [List.cons_append, existsMatch, ih]
    simp

/-- Any occurrence of `className=` followed by a quoted, quote-free value
containing a colon matches the CSS-syntax-in-className regex. -/
theorem classNamePat_match (v1 v2 post : List Char) (q q2 : Char)
    (hq : isQuote q = true) (hq2 : isQuote q2 = true)
    (hv1 : ∀ c ∈ v1, notQuote c = true) (hv2 : ∀ c ∈ v2, notQuote c = true) :
    matchSeq classNamePat
      ("className".data ++ '=' :: q :: ((v1 ++ ':' :: v2) ++ q2 :: post))
      = true := by
  rw [classNamePat]
  apply matchSeq_lit "className".data _ ('=' :: q :: ((v1 ++ ':' :: v2) ++ q2 :: post))
  apply matchSeq_star_nil
  apply matchSeq_one _ _ '=' _ (by rfl)
  apply matchSeq_star_nil
  apply matchSeq_one _ _ q _ hq
  have hassoc : (v1 ++ ':' :: v2) ++ q2 :: post
      = v1 ++ (':' :: (v2 ++ q2 :: post)) := by
    simp [List.append_assoc]
  rw [hassoc]
  apply matchSeq_star notQuote _ v1 _ hv1
  apply matchSeq_one _ _ ':' _ (by rfl)
  apply matchSeq_star_nil
  apply matchSeq_star notQuote _ v2 _ hv2
  apply matchSeq_one _ _ q2 _ hq2
  rfl

/-- If the trimmed text contains such a `className` attribute anywhere, the
regex test fires. -/
theorem classNameTest_of_substring (s : String) (pre v1 v2 post : List Char)
    (q q2 : Char)
    (hdec : (jsTrim s).data =
      pre ++ ("className".data ++ '=' :: q :: ((v1 ++ ':' :: v2) ++ q2 :: post)))
    (hq : isQuote q = true) (hq2 : isQuote q2 = true)
    (hv1 : ∀ c ∈ v1, notQuote c = true) (hv2 : ∀ c ∈ v2, notQuote c = true) :
    testR classNamePat (jsTrim s) = true := by
  rw [testR, hdec]
  exact existsMatch_append _ pre _ (classNamePat_match v1 v2 post q q2 hq hq2 hv1 hv2)

/-- Characterization of acceptance: `validateJSXOutput` returns `ok` only with
the trimmed input, and only when every rejection test is negative. -/
theorem validateJSXOutput_ok (s t : String)
    (h : validateJSXOutput s = Except.ok t) :
    t = jsTrim s ∧ (jsTrim s).data ≠ [] ∧
    testR jsxElementPat (jsTrim s) = true ∧
    testR inlineStylePat (jsTrim s) = false ∧
    testR styleStringPat (jsTrim s) = false ∧
    testR styleTagPat (jsTrim s) = false ∧
    cssInJsTest (jsTrim s) = false ∧
    testR classNamePat (jsTrim s) = false ∧
    testR cssImportPat (jsTrim s) = false ∧
    testR cssModulePat (jsTrim s) = false ∧
    testR requireCssPat (jsTrim s) = false := by
  rw [validateJSXOutput] at h
  by_cases hc1 : (jsTrim s).data = []
  · rw [if_pos hc1] at h
    exact Except.noConfusion h
  · rw [if_neg hc1] at h
    by_cases hc2 : (!(testR jsxElementPat (jsTrim s))) = true
    · rw [if_pos hc2] at h
      exact Except.noConfusion h
    · rw [if_neg hc2] at h
      by_cases hc3 : testR inlineStylePat (jsTrim s) = true
      · rw [if_pos hc3] at h
        exact Except.noConfusion h
      · rw [if_neg hc3] at h
        by_cases hc4 : testR styleStringPat (jsTrim s) = true
        · rw [if_pos hc4] at h
          exact Except.noConfusion h
        · rw [if_neg hc4] at h
          by_cases hc5 : testR styleTagPat (jsTrim s) = true
          · rw [if_pos hc5] at h
            exact Except.noConfusion h
          · rw [if_neg hc5] at h
            by_cases hc6 : cssInJsTest (jsTrim s) = true
            · rw [if_pos hc6] at h
              exact Except.noConfusion h
            · rw [if_neg hc6] at h
              by_cases hc7 : testR classNamePat (jsTrim s) = true
              · rw [if_pos hc7] at h
                exact Except.noConfusion h
              · rw [if_neg hc7] at h
                by_cases hc8 : testR cssImportPat (jsTrim s) = true
                · rw [if_pos hc8] at h
                  exact Except.noConfusion h
                · rw [if_neg hc8] at h
                  by_cases hc9 : testR cssModulePat (jsTrim s) = true
                  · rw [if_pos hc9] at h
                    exact Except.noConfusion h
                  · rw [if_neg hc9] at h
                    by_cases hc10 : testR requireCssPat (jsTrim s) = true
                    · rw [if_pos hc10] at h
                      exact Except.noConfusion h
                    · rw [if_neg hc10] at h
                      by_cases hc11 : (!(testR openTagPat (jsTrim s))) = true
                      · rw [if_pos hc11] at h
                        exact Except.noConfusion h
                      · rw [if_neg hc11] at h
                        injection h with h
                        subst h
                        exact ⟨rfl, hc1, bool_true_of_not_not hc2, bool_false_of_not hc3,
                          bool_false_of_not hc4, bool_false_of_not hc5, bool_false_of_not hc6,
                          bool_false_of_not hc7, bool_false_of_not hc8, bool_false_of_not hc9,
                          bool_false_of_not hc10⟩

/-- C1: the validator runs an ordered, fail-closed gate.  (1) Output is
returned only when it equals the trimmed input and every rejection test is
negative; (2) empty trimmed input always raises the empty-output violation
(the head of the gate, regardless of the rest of the content); then one
concrete input per check showing each distinct named violation is raised
independently; an input violating several checks at once raises the first
violation in gate order (short-circuit); and a clean utility-class-only input
is returned trimmed. -/
theorem c1_validation_gate :
    (∀ s t, validateJSXOutput s = Except.ok t →
      t = jsTrim s ∧ (jsTrim s).data ≠ [] ∧
      testR jsxElementPat (jsTrim s) = true ∧
      testR inlineStylePat (jsTrim s) = false ∧
      testR styleStringPat (jsTrim s) = false ∧
      testR styleTagPat (jsTrim s) = false ∧
      cssInJsTest (jsTrim s) = false ∧
      testR classNamePat (jsTrim s) = false ∧
      testR cssImportPat (jsTrim s) = false ∧
      testR cssModulePat (jsTrim s) = false ∧
      testR requireCssPat (jsTrim s) = false) ∧
    (∀ s, jsTrim s = "" → validateJSXOutput s = Except.error Violation.emptyOutput) ∧
    validateJSXOutput "hello world" = Except.error Violation.noJsxElement ∧
    validateJSXOutput "<div style=\x7b\x7bcolor: red\x7d\x7d />"
      = Except.error Violation.inlineStyleObject ∧
    validateJSXOutput "<div style=\"color: red\" />"
      = Except.error Violation.inlineStyleString ∧
    validateJSXOutput "<style>p \x7b color: red \x7d</style>"
      = Except.error Violation.styleTag ∧
    validateJSXOutput "<div>x</div> styled.div"
      = Except.error Violation.cssInJs ∧
    validateJSXOutput "<div className=\"md:flex\" />"
      = Except.error Violation.cssInClassName ∧
    validateJSXOutput "import \"./a.css\"\n<div>x</div>"
      = Except.error Violation.cssImport ∧
    validateJSXOutput "<div>x</div>\nimport styles from \"./b.module.css\""
      = Except.error Violation.cssModule ∧
    validateJSXOutput "<div>x</div> require(\"./a.css\")"
      = Except.error Violation.requireCss ∧
    validateJSXOutput "<div style=\x7b\x7bcolor: red\x7d\x7d />\nimport \"./a.css\""
      = Except.error Violation.inlineStyleObject ∧
    validateJSXOutput "<div className=\"p-4 flex\">hi</div>"
      = Except.ok "<div className=\"p-4 flex\">hi</div>" := by
  refine ⟨validateJSXOutput_ok, ?_, rfl, rfl, rfl, rfl, rfl, rfl, rfl, rfl, rfl, rfl, rfl⟩
  intro s hsEmpty
  have hdata : (jsTrim s).data = [] := by rw [hsEmpty]
  rw [validateJSXOutput]
  rw [if_pos hdata]

theorem c1_witness :
    "<div className=\"p-4 flex\">hi</div>"
        = jsTrim "<div className=\"p-4 flex\">hi</div>" ∧
    (jsTrim "<div className=\"p-4 flex\">hi</div>").data ≠ [] ∧
    testR jsxElementPat (jsTrim "<div className=\"p-4 flex\">hi</div>") = true ∧
    testR inlineStylePat (jsTrim "<div className=\"p-4 flex\">hi</div>") = false ∧
    testR styleStringPat (jsTrim "<div className=\"p-4 flex\">hi</div>") = false ∧
    testR styleTagPat (jsTrim "<div className=\"p-4 flex\">hi</div>") = false ∧
    cssInJsTest (jsTrim "<div className=\"p-4 flex\">hi</div>") = false ∧
    testR classNamePat (jsTrim "<div className=\"p-4 flex\">hi</div>") = false ∧
    testR cssImportPat (jsTrim "<div className=\"p-4 flex\">hi</div>") = false ∧
    testR cssModulePat (jsTrim "<div className=\"p-4 flex\">hi</div>") = false ∧
    testR requireCssPat (jsTrim "<div className=\"p-4 flex\">hi</div>") = false :=
  c1_validation_gate.1 "<div className=\"p-4 flex\">hi</div>"
    "<div className=\"p-4 flex\">hi</div>" rfl

/-! ## Breakpoint helper (`src/commands/generateFromFigma.ts`, second file:
responsive breakpoint utilities) -/

/-- The `Breakpoint` union type (`'sm' | 'md' | 'lg' | 'xl' | '2xl'`). -/
inductive Breakpoint where
  | sm
  | md
  | lg
  | xl
  | x2l
deriving DecidableEq

def bpName : Breakpoint → String
  | Breakpoint.sm => "sm"
  | Breakpoint.md => "md"
  | Breakpoint.lg => "lg"
  | Breakpoint.xl => "xl"
  | Breakpoint.x2l => "2xl"

/-- `withBreakpoint` (lines 177-180): empty class returned unchanged,
otherwise the colon-joined `prefix:className`. -/
def withBreakpoint (bp : Breakpoint) (className : String) : String :=
  if className = "" then className
  else bpName bp ++ ":" ++ className

/-- The JSX text used in the C10 counterexample: a className attribute whose
double-quoted value contains a single-quote before the responsive class. -/
def c10Input : String :=
  "<div className=\"a" ++ squote.toString ++ "md:flex\" />"

/-- C10 counterexample: `withBreakpoint md "flex"` is `"md:flex"`, and
`c10Input` is a JSX text whose className attribute's quoted value contains
that colon-prefixed class — yet `validateJSXOutput` ACCEPTS it, because the
single-quote inside the double-quoted value stops the `[^"']*` run of the
className regex before the colon.  So the claim "any JSX text containing a
className attribute whose quoted value includes such a colon-prefixed class
is rejected" is false. -/
theorem c10_counterexample :
    withBreakpoint Breakpoint.md "flex" = "md:flex" ∧
    c10Input = "<div className=\"a" ++ squote.toString
      ++ withBreakpoint Breakpoint.md "flex" ++ "\" />" ∧
    validateJSXOutput c10Input = Except.ok c10Input := by
  refine ⟨rfl, rfl, ?_⟩
  rfl

/-- C10 (amended): `withBreakpoint` builds `prefix ++ ":" ++ class` for every
breakpoint prefix and non-empty class; and any JSX text whose trimmed form
contains `className=` followed by a quoted value that contains a colon and no
quote characters (in particular a responsive class produced by
`withBreakpoint` inside a quote-free value) is rejected by
`validateJSXOutput`; a quote character inside the value defeats the check
(see the counterexample). -/
theorem c10_breakpoint_rejection :
    (∀ (bp : Breakpoint) (c : String), c ≠ "" →
      withBreakpoint bp c = bpName bp ++ ":" ++ c) ∧
    (∀ (s : String) (pre v1 v2 post : List Char) (q q2 : Char),
      (jsTrim s).data =
        pre ++ ("className".data ++ '=' :: q :: ((v1 ++ ':' :: v2) ++ q2 :: post)) →
      isQuote q = true → isQuote q2 = true →
      (∀ c ∈ v1, notQuote c = true) → (∀ c ∈ v2, notQuote c = true) →
      ∀ t, validateJSXOutput s ≠ Except.ok t) := by
  constructor
  · intro bp c hc
    rw [withBreakpoint, if_neg hc]
  · intro s pre v1 v2 post q q2 hdec hq hq2 hv1 hv2 t hok
    have hclean := (validateJSXOutput_ok s t hok).2.2.2.2.2.2.2.1
    have htrue := classNameTest_of_substring s pre v1 v2 post q q2 hdec hq hq2 hv1 hv2
    rw [htrue] at hclean
    exact Bool.noConfusion hclean

theorem c10_witness :
    withBreakpoint Breakpoint.md "flex" = "md" ++ ":" ++ "flex" ∧
    validateJSXOutput "<div className=\"md:flex\" />"
      ≠ Except.ok "<div className=\"md:flex\" />" :=
  ⟨c10_breakpoint_rejection.1 Breakpoint.md "flex" (by decide),
   c10_breakpoint_rejection.2 "<div className=\"md:flex\" />"
     "<div ".data ['m', 'd'] "flex".data [' ', '/', '>'] '"' '"'
     (by decide) (by decide) (by decide) (by decide) (by decide)
     "<div className=\"md:flex\" />"⟩

/-! ## Figma URL parser (`src/services/figmaService.ts`, `parseFigmaUrl`,
stored in `licenseService.ts` lines 251-278 of the flattened sources)

The two regexes used — `/^[a-zA-Z0-9]+$/`, the leftmost-match search
`/figma\.com\/(?:file|design)\/([a-zA-Z0-9]+)/` and
`/[?&]node-id=([^&]+)/` — are hand-compiled into scanners below: positions
are tried left to right, `file` before `design` at each position, and the
captures are greedy runs exactly as the regex engine would produce. -/

/-- Match a literal character sequence, returning the rest of the input. -/
def dropLit : List Char → List Char → Option (List Char)
  | [], s => some s
  | _ :: _, [] => none
  | c :: cs, x :: xs => if x == c then dropLit cs xs else none

/-- A match attempt of `figma\.com\/(?:file|design)\/([a-zA-Z0-9]+)` at the
current position: literal `figma.com/`, then `file/` (tried first) or
`design/`, then a nonempty greedy alphanumeric capture. -/
def urlTryHere (s : List Char) : Option (List Char) :=
  match dropLit "figma.com/".data s with
  | none => none
  | some rest =>
    match (dropLit "file/".data rest).orElse (fun _ => dropLit "design/".data rest) with
    | none => none
    | some r2 =>
      let run := r2.takeWhile isAsciiAlnum
      if run.isEmpty then none else some run

/-- Leftmost match of the file-id regex: try each position left to right. -/
def urlScanAux : List Char → Option (List Char)
  | [] => none
  | c :: rest =>
    match urlTryHere (c :: rest) with
    | some fid => some fid
    | none => urlScanAux rest

/-- A match attempt of `[?&]node-id=([^&]+)` at the current position. -/
def nodeTryHere (s : List Char) : Option (List Char) :=
  match s with
  | [] => none
  | c :: rest =>
    if c == '?' || c == '&' then
      match dropLit "node-id=".data rest with
      | none => none
      | some r2 =>
        let run := r2.takeWhile (fun c => !(c == '&'))
        if run.isEmpty then none else some run
    else none

/-- Leftmost match of the node-id regex. -/
def nodeScanAux : List Char → Option (List Char)
  | [] => none
  | c :: rest =>
    match nodeTryHere (c :: rest) with
    | some nid => some nid
    | none => nodeScanAux rest

def hexVal (c : Char) : Option Nat :=
  let n := c.toNat
  if 48 ≤ n ∧ n ≤ 57 then some (n - 48)
  else if 65 ≤ n ∧ n ≤ 70 then some (n - 55)
  else if 97 ≤ n ∧ n ≤ 102 then some (n - 87)
  else none

/-- `decodeURIComponent`: strict percent-decoding with UTF-8 sequence
validation (continuation ranges, no overlong forms, no surrogates, at most
U+10FFFF).  `none` models a thrown `URIError`. -/
def decodeUri : List Char → Option (List Char)
  | [] => some []
  | '%' :: h1 :: h2 :: rest =>
    match hexVal h1, hexVal h2 with
    | some a, some b0 =>
      let b := 16 * a + b0
      if b < 0x80 then (decodeUri rest).map (fun cs => Char.ofNat b :: cs)
      else if b < 0xC0 then none
      else if b < 0xE0 then
        match rest with
        | '%' :: h3 :: h4 :: rest2 =>
          match hexVal h3, hexVal h4 with
          | some a2, some b2 =>
            let cb := 16 * a2 + b2
            if 0x80 ≤ cb ∧ cb < 0xC0 then
              let cp := (b % 32) * 64 + cb % 64
              if cp < 0x80 then none
              else (decodeUri rest2).map (fun cs => Char.ofNat cp :: cs)
            else none
          | _, _ => none
        | _ => none
      else if b < 0xF0 then
        match rest with
        | '%' :: h3 :: h4 :: '%' :: h5 :: h6 :: rest2 =>
          match hexVal h3, hexVal h4, hexVal h5, hexVal h6 with
          | some a2, some b2, some a3, some b3 =>
            let cb1 := 16 * a2 + b2
            let cb2 := 16 * a3 + b3
            if 0x80 ≤ cb1 ∧ cb1 < 0xC0 ∧ 0x80 ≤ cb2 ∧ cb2 < 0xC0 then
              let cp := (b % 16) * 4096 + (cb1 % 64) * 64 + cb2 % 64
              if cp < 0x800 ∨ (0xD800 ≤ cp ∧ cp < 0xE000) then none
              else (decodeUri rest2).map (fun cs => Char.ofNat cp :: cs)
            else none
          | _, _, _, _ => none
        | _ => none
      else if b < 0xF8 then
        match rest with
        | '%' :: h3 :: h4 :: '%' :: h5 :: h6 :: '%' :: h7 :: h8 :: rest2 =>
          match hexVal h3, hexVal h4, hexVal h5, hexVal h6, hexVal h7, hexVal h8 with
          | some a2, some b2, some a3, some b3, some a4, some b4 =>
            let cb1 := 16 * a2 + b2
            let cb2 := 16 * a3 + b3
            let cb3 := 16 * a4 + b4
            if 0x80 ≤ cb1 ∧ cb1 < 0xC0 ∧ 0x80 ≤ cb2 ∧ cb2 < 0xC0 ∧
                0x80 ≤ cb3 ∧ cb3 < 0xC0 then
              let cp := (b % 8) * 262144 + (cb1 % 64) * 4096 + (cb2 % 64) * 64 + cb3 % 64
              if cp < 0x10000 ∨ 0x10FFFF < cp then none
              else (decodeUri rest2).map (fun cs => Char.ofNat cp :: cs)
            else none
          | _, _, _, _, _, _ => none
        | _ => none
      else none
    | _, _ => none
  | '%' :: _ => none
  | c :: rest => (decodeUri rest).map (fun cs => c :: cs)

/-- Result of `parseFigmaUrl`. -/
structure ParsedFigmaUrl where
  fileId : String
  nodeId : Option String
deriving DecidableEq

/-- The error outcomes of `parseFigmaUrl`: the thrown
`Invalid Figma URL format: ${figmaUrl}` error (carrying the original input),
or a `URIError` escaping from `decodeURIComponent`. -/
inductive FigmaUrlError where
  | invalidUrl (original : String)
  | uriError
deriving DecidableEq

/-- `parseFigmaUrl` (lines 251-278): trim; a nonempty all-alphanumeric input
is returned verbatim as the file id; otherwise the file id is the first
match's capture, with failure carrying the original input; the optional node
id is the first `[?&]node-id=([^&]+)` capture, URL-decoded. -/
def parseFigmaUrl (figmaUrl : String) : Except FigmaUrlError ParsedFigmaUrl :=
  let trimmed := jsTrim figmaUrl
  if trimmed.data ≠ [] ∧ trimmed.data.all isAsciiAlnum then
    Except.ok ⟨trimmed, none⟩
  else
    match urlScanAux trimmed.data with
    | none => Except.error (FigmaUrlError.invalidUrl figmaUrl)
    | some fid =>
      match nodeScanAux trimmed.data with
      | none => Except.ok ⟨⟨fid⟩, none⟩
      | some raw =>
        match decodeUri raw with
        | some d => Except.ok ⟨⟨fid⟩, some ⟨d⟩⟩
        | none => Except.error FigmaUrlError.uriError

/-! ### Parser lemmas -/

theorem dropLit_self : ∀ (w s : List Char), dropLit w (w ++ s) = some s := by
  intro w
  induction w with
  | nil => intro s; rfl
  | cons c t ih =>
    intro s
    rw [List.cons_append, dropLit]
    simp [ih]

theorem takeWhile_all (p : Char → Bool) :
    ∀ (l : List Char), (∀ x ∈ l, p x = true) → l.takeWhile p = l := by
  intro l
  induction l with
  | nil => intro _; rfl
  | cons c t ih =>
    intro h
    rw [List.takeWhile_cons, h c (List.mem_cons_self c t)]
    rw [ih (fun x hx => h x (List.mem_cons_of_mem c hx))]
    rfl

theorem takeWhile_append_stop (p : Char → Bool) :
    ∀ (l : List Char) (c : Char) (r : List Char),
      (∀ x ∈ l, p x = true) → p c = false →
      (l ++ c :: r).takeWhile p = l := by
  intro l
  induction l with
  | nil =>
    intro c r _ hc
    rw [List.nil_append, List.takeWhile_cons, hc]
    rfl
  | cons x t ih =>
    intro c r h hc
    rw [List.cons_append, List.takeWhile_cons, h x (List.mem_cons_self x t)]
    rw [ih c r (fun y hy => h y (List.mem_cons_of_mem x hy)) hc]
    rfl

theorem dropWhile_eq_self_of (p : Char → Bool) (l : List Char)
    (h : ∀ c ∈ l.take 1, p c = false) : l.dropWhile p = l := by
  cases l with
  | nil => rfl
  | cons c rest =>
    have hc : p c = false := h c (by simp)
    rw [List.dropWhile_cons, hc]
    rfl

theorem jsTrim_eq_self (s : String)
    (h1 : ∀ c ∈ s.data.take 1, jsWs c = false)
    (h2 : ∀ c ∈ s.data.reverse.take 1, jsWs c = false) : jsTrim s = s := by
  show String.mk _ = s
  rw [dropWhile_eq_self_of _ _ h1]
  rw [dropWhile_eq_self_of _ _ h2]
  rw [List.reverse_reverse]

theorem alnum_not_ws (c : Char) (h : isAsciiAlnum c = true) : jsWs c = false := by
  have hc : '0' ≤ c ∧ c ≤ 'z' := by
    rw [isAsciiAlnum, isAsciiAlpha] at h
    simp only [Bool.or_eq_true, Bool.and_eq_true, decide_eq_true_eq] at h
    rcases h with (⟨ha, hb⟩ | ⟨ha, hb⟩) | ⟨ha, hb⟩
    · exact ⟨le_trans (by decide) ha, le_trans hb (by decide)⟩
    · exact ⟨le_trans (by decide) ha, hb⟩
    · exact ⟨ha, le_trans hb (by decide)⟩
  obtain ⟨hlo, hhi⟩ := hc
  have hne : ∀ d : Char, (d < '0' ∨ 'z' < d) → (c == d) = false := by
    intro d hd
    rw [beq_eq_false_iff_ne]
    rintro rfl
    rcases hd with hd | hd
    · exact absurd hlo (not_le.mpr hd)
    · exact absurd hhi (not_le.mpr hd)
  have hrange : decide (' ' ≤ c) = false := by
    rw [decide_eq_false_iff_not]
    intro hr
    exact absurd (le_trans hr hhi) (by decide)
  rw [jsWs]
  rw [hne ' ' (Or.inl (by decide)), hne '\t' (Or.inl (by decide)),
    hne '\n' (Or.inl (by decide)), hne '\x0b' (Or.inl (by decide)),
    hne '\x0c' (Or.inl (by decide)), hne '\r' (Or.inl (by decide)),
    hne ' ' (Or.inr (by decide)), hne ' ' (Or.inr (by decide)),
    hne ' ' (Or.inr (by decide)), hne ' ' (Or.inr (by decide)),
    hne ' ' (Or.inr (by decide)), hne ' ' (Or.inr (by decide)),
    hne '　' (Or.inr (by decide)), hne '﻿' (Or.inr (by decide)),
    hrange]
  rfl

theorem alnum_not_qa (c : Char) (h : isAsciiAlnum c = true) :
    (c == '?' || c == '&') = false := by
  have h1 : (c == '?') = false := by
    rw [beq_eq_false_iff_ne]
    rintro rfl
    exact absurd h (by decide)
  have h2 : (c == '&') = false := by
    rw [beq_eq_false_iff_ne]
    rintro rfl
    exact absurd h (by decide)
  rw [h1, h2]
  rfl

theorem urlTryHere_ne_f (c : Char) (t : List Char) (hc : (c == 'f') = false) :
    urlTryHere (c :: t) = none := by
  rw [urlTryHere]
  have hdrop : dropLit "figma.com/".data (c :: t) = none := by
    show dropLit ('f' :: "igma.com/".data) (c :: t) = none
    rw [dropLit, hc]
    rfl
  rw [hdrop]

theorem urlScanAux_skip (l : List Char) (s : List Char)
    (hl : ∀ c ∈ l, (c == 'f') = false) :
    urlScanAux (l ++ s) = urlScanAux s := by
  induction l with
  | nil => rfl
  | cons c t ih =>
    rw [List.cons_append, urlScanAux,
      urlTryHere_ne_f c _ (hl c (List.mem_cons_self c t))]
    exact ih (fun x hx => hl x (List.mem_cons_of_mem c hx))

theorem urlScanAux_pos (c : Char) (t fid : List Char)
    (h : urlTryHere (c :: t) = some fid) : urlScanAux (c :: t) = some fid := by
  rw [urlScanAux, h]

theorem urlTryHere_match (fid rest : List Char) (hfid : fid ≠ [])
    (hal : ∀ c ∈ fid, isAsciiAlnum c = true) :
    urlTryHere ("figma.com/".data ++ ("file/".data ++ (fid ++ '/' :: rest)))
      = some fid := by
  rw [urlTryHere]
  rw [dropLit_self "figma.com/".data _]
  dsimp only
  rw [dropLit_self "file/".data _]
  dsimp only [Option.orElse]
  rw [takeWhile_append_stop isAsciiAlnum fid '/' rest hal (by decide)]
  rw [if_neg (by simpa using hfid : ¬ fid.isEmpty = true)]

theorem nodeTryHere_not_qa (c : Char) (t : List Char)
    (h : (c == '?' || c == '&') = false) : nodeTryHere (c :: t) = none := by
  rw [nodeTryHere]
  rw [h]
  rfl

theorem nodeScanAux_skip (l : List Char) (s : List Char)
    (hl : ∀ c ∈ l, (c == '?' || c == '&') = false) :
    nodeScanAux (l ++ s) = nodeScanAux s := by
  induction l with
  | nil => rfl
  | cons c t ih =>
    rw [List.cons_append, nodeScanAux,
      nodeTryHere_not_qa c _ (hl c (List.mem_cons_self c t))]
    exact ih (fun x hx => hl x (List.mem_cons_of_mem c hx))

theorem nodeScanAux_pos (c : Char) (t nid : List Char)
    (h : nodeTryHere (c :: t) = some nid) : nodeScanAux (c :: t) = some nid := by
  rw [nodeScanAux, h]

theorem nodeTryHere_match (e : List Char) (hne : e ≠ [])
    (hamp : ∀ c ∈ e, (c == '&') = false) :
    nodeTryHere ('?' :: ("node-id=".data ++ e)) = some e := by
  rw [nodeTryHere]
  rw [if_pos (by decide : (('?' == '?' : Bool) || ('?' == '&' : Bool)) = true)]
  rw [dropLit_self "node-id=".data e]
  dsimp only
  rw [takeWhile_all _ e (fun x hx => by rw [hamp x hx]; rfl)]
  rw [if_neg (by simpa using hne : ¬ e.isEmpty = true)]

/-- C8: (1) round trip — a well-formed file URL with a node-id query
parameter parses into the file id and the URL-decoded node id (for any
nonempty alphanumeric file id and any nonempty encoded node segment free of
whitespace and ampersands whose percent-decoding succeeds); (2) a bare
alphanumeric identifier is returned verbatim as the file id with no node id;
(3) input from which no identifier is extractable (not a bare id, no
`figma.com/(file|design)/<id>` match anywhere) fails with the invalid-URL
error carrying the original input string — also shown on the concrete input
`"not a url"`. -/
theorem c8_parse_reference :
    (∀ (fid e d : String),
      fid.data ≠ [] → (∀ c ∈ fid.data, isAsciiAlnum c = true) →
      e.data ≠ [] →
      (∀ c ∈ e.data, jsWs c = false ∧ (c == '&') = false) →
      decodeUri e.data = some d.data →
      parseFigmaUrl ("https://www.figma.com/file/" ++ fid ++ "/Design?node-id=" ++ e)
        = Except.ok ⟨fid, some d⟩) ∧
    (∀ s : String, s.data ≠ [] → (∀ c ∈ s.data, isAsciiAlnum c = true) →
      parseFigmaUrl s = Except.ok ⟨s, none⟩) ∧
    (∀ s : String,
      ¬ ((jsTrim s).data ≠ [] ∧ (jsTrim s).data.all isAsciiAlnum = true) →
      urlScanAux (jsTrim s).data = none →
      parseFigmaUrl s = Except.error (FigmaUrlError.invalidUrl s)) ∧
    parseFigmaUrl "not a url" = Except.error (FigmaUrlError.invalidUrl "not a url") := by
  refine ⟨?_, ?_, ?_, rfl⟩
  · intro fid e d hfid hal hene heok hdec
    set URL := "https://www.figma.com/file/" ++ fid ++ "/Design?node-id=" ++ e with hURL
    have hdata : URL.data = "https://www.".data ++ ("figma.com/".data ++
        ("file/".data ++ (fid.data ++ ('/' :: ("Design".data ++
        ('?' :: ("node-id=".data ++ e.data))))))) := by
      rw [hURL]
      rw [String.data_append, String.data_append, String.data_append]
      rw [show "https://www.figma.com/file/".data
          = "https://www.".data ++ ("figma.com/".data ++ "file/".data) from rfl]
      rw [show "/Design?node-id=".data
          = '/' :: ("Design".data ++ ('?' :: "node-id=".data)) from rfl]
      simp only [List.append_assoc, List.cons_append]
    have hdata2 : URL.data = ("https://www.figma.com/file/".data ++
        (fid.data ++ ('/' :: "Design".data))) ++
        ('?' :: ("node-id=".data ++ e.data)) := by
      rw [hURL]
      rw [String.data_append, String.data_append, String.data_append]
      rw [show "/Design?node-id=".data
          = ('/' :: "Design".data) ++ ('?' :: "node-id=".data) from rfl]
      simp only [List.append_assoc, List.cons_append]
    have hdata3 : URL.data = ("https://www.figma.com/file/".data ++
        (fid.data ++ "/Design?node-id=".data)) ++ e.data := by
      rw [hURL]
      rw [String.data_append, String.data_append, String.data_append]
      simp only [List.append_assoc]
    have htrim : jsTrim URL = URL := by
      apply jsTrim_eq_self
      · intro c hc
        rw [hdata] at hc
        have h1 : ("https://www.".data ++ ("figma.com/".data ++
            ("file/".data ++ (fid.data ++ ('/' :: ("Design".data ++
            ('?' :: ("node-id=".data ++ e.data)))))))).take 1 = ['h'] := rfl
        rw [h1, List.mem_singleton] at hc
        subst hc
        decide
      · intro c hc
        obtain ⟨x, t, hrev⟩ : ∃ x t, e.data.reverse = x :: t := by
          cases he : e.data.reverse with
          | nil =>
            exfalso
            apply hene
            have h2 := congrArg List.reverse he
            rwa [List.reverse_reverse] at h2
          | cons x t => exact ⟨x, t, rfl⟩
        have hx : x ∈ e.data := by
          rw [← List.mem_reverse, hrev]
          exact List.mem_cons_self x t
        rw [hdata3, List.reverse_append, hrev, List.cons_append] at hc
        have h1 : (x :: (t ++ ("https://www.figma.com/file/".data ++
            (fid.data ++ "/Design?node-id=".data)).reverse)).take 1 = [x] := rfl
        rw [h1, List.mem_singleton] at hc
        subst hc
        exact (heok _ hx).1
    have hnotbare : ¬ (URL.data ≠ [] ∧ URL.data.all isAsciiAlnum = true) := by
      rintro ⟨-, hall⟩
      have hmem : ':' ∈ URL.data := by
        rw [hdata]
        exact List.mem_append_left _ (by decide)
      exact absurd (List.all_eq_true.mp hall ':' hmem) (by decide)
    have hurl : urlScanAux URL.data = some fid.data := by
      rw [hdata]
      rw [urlScanAux_skip "https://www.".data _ (by decide)]
      exact urlScanAux_pos 'f' _ fid.data
        (urlTryHere_match fid.data
          ("Design".data ++ ('?' :: ("node-id=".data ++ e.data))) hfid hal)
    have hnode : nodeScanAux URL.data = some e.data := by
      rw [hdata2]
      rw [nodeScanAux_skip _ _ ?_]
      · exact nodeScanAux_pos '?' _ e.data
          (nodeTryHere_match e.data hene (fun c hc => (heok c hc).2))
      · intro c hc
        rcases List.mem_append.mp hc with h | h
        · exact (by decide : ∀ x ∈ "https://www.figma.com/file/".data,
            ((x == '?' : Bool) || (x == '&' : Bool)) = false) c h
        · rcases List.mem_append.mp h with h2 | h2
          · exact alnum_not_qa c (hal c h2)
          · rcases List.mem_cons.mp h2 with h3 | h3
            · subst h3
              decide
            · exact (by decide : ∀ x ∈ "Design".data,
                ((x == '?' : Bool) || (x == '&' : Bool)) = false) c h3
    rw [parseFigmaUrl]
    rw [htrim]
    rw [if_neg hnotbare]
    rw [hurl]
    dsimp only
    rw [hnode]
    dsimp only
    rw [hdec]
  · intro s hne hal
    have htrim : jsTrim s = s := by
      apply jsTrim_eq_self
      · intro c hc
        exact alnum_not_ws c (hal c (List.mem_of_mem_take hc))
      · intro c hc
        exact alnum_not_ws c (hal c (List.mem_reverse.mp (List.mem_of_mem_take hc)))
    rw [parseFigmaUrl, htrim]
    rw [if_pos ⟨hne, List.all_eq_true.mpr hal⟩]
  · intro s hnb hscan
    rw [parseFigmaUrl]
    rw [if_neg hnb]
    rw [hscan]

theorem c8_witness :
    parseFigmaUrl "https://www.figma.com/file/abc123/Design?node-id=1-2%3A3"
      = Except.ok ⟨"abc123", some "1-2:3"⟩ :=
  c8_parse_reference.1 "abc123" "1-2%3A3" "1-2:3"
    (by decide) (by decide) (by decide) (by decide) rfl

/-! ## Safe writer (`src/services/codeWriter.ts`)

The writer is modelled as a state transformer over an explicit filesystem
(files as path ↦ content, plus a set of directories; paths are segment
lists).  Inputs that the source reads from its environment — the workspace
folder, the user's answer to the confirmation prompt, `Date.now()` — are
explicit parameters.  `setTimeout` cleanup of scratch files fires after the
invocation returns and is outside the modelled step. -/

inductive Folder where
  | pages
  | components
deriving DecidableEq

def folderName : Folder → String
  | Folder.pages => "pages"
  | Folder.components => "components"

/-- `WriteOptions` (codeWriter.ts lines 5-9). -/
structure WriteOptions where
  fileName : String
  targetFolder : Option Folder
  showDiff : Option Bool
deriving DecidableEq

structure FsState where
  files : List (List String × String)
  dirs : List (List String)
deriving DecidableEq

def lookupFile (fs : FsState) (p : List String) : Option String :=
  (fs.files.find? (fun e => e.1 == p)).map (fun e => e.2)

/-- `fs.existsSync`: a file or directory exists at the path. -/
def fsExists (fs : FsState) (p : List String) : Bool :=
  fs.dirs.contains p || fs.files.any (fun e => e.1 == p)

/-- `fs.mkdirSync` (modelled as creating the named directory). -/
def mkdirFs (fs : FsState) (p : List String) : FsState :=
  { fs with dirs := p :: fs.dirs }

/-- `vscode.workspace.fs.writeFile`: create or replace the file. -/
def writeFileFs (fs : FsState) (p : List String) (content : String) : FsState :=
  { fs with files := (p, content) :: fs.files.filter (fun e => !(e.1 == p)) }

/-- `path.extname` on a single path segment: the suffix from the last dot;
empty when there is no dot or when the only dot is the leading character. -/
def extname (name : String) : String :=
  let ds := name.data
  let afterRev := ds.reverse.takeWhile (fun c => !(c == '.'))
  if afterRev.length = ds.length then ""
  else if ds.length - afterRev.length - 1 = 0 then ""
  else ⟨'.' :: afterRev.reverse⟩

/-- The thrown errors of `writeJSXCode`: no workspace folder, or the
`File already exists` refusal. -/
inductive WriteErr where
  | noWorkspace
  | alreadyExists
deriving DecidableEq

/-- File-name resolution (codeWriter.ts lines 34-39): the extension is
coerced to `.tsx` unless already `.tsx`/`.jsx` (case-insensitively). -/
def resolveFileName (fileName : String) : String :=
  let ext : String := ⟨(extname fileName).data.map Char.toLower⟩
  if ext = ".tsx" ∨ ext = ".jsx" then fileName else fileName ++ ".tsx"

/-- Filesystem effect of `showDiffPreview` (lines 80-120): ensure the scratch
directory, write the proposed content to a scratch file named with
`Date.now()`; the diff editor itself has no filesystem effect. -/
def showDiffPreviewFs (fs : FsState) (ws : List String) (fileName : String)
    (now : Nat) (content : String) : FsState :=
  let tempDir := ws ++ [".figma-temp"]
  let fs1 := if fsExists fs tempDir then fs else mkdirFs fs tempDir
  writeFileFs fs1 (tempDir ++ ["temp-" ++ toString now ++ "-" ++ fileName]) content

/-- Filesystem effect of `showDiffPreviewForNewFile` (lines 125-175): scratch
directory, scratch file with the proposed content, and an empty comparison
file. -/
def showDiffPreviewNewFs (fs : FsState) (ws : List String) (fileName : String)
    (now : Nat) (content : String) : FsState :=
  let tempDir := ws ++ [".figma-temp"]
  let fs1 := if fsExists fs tempDir then fs else mkdirFs fs tempDir
  let fs2 := writeFileFs fs1
    (tempDir ++ ["temp-" ++ toString now ++ "-" ++ fileName]) content
  writeFileFs fs2 (tempDir ++ ["empty-" ++ toString now ++ "-" ++ fileName]) ""

/-- `writeJSXCode` (codeWriter.ts lines 15-75): resolve the target directory
(creating it if absent), coerce the extension, refuse to overwrite an
existing path (after an optional diff preview), otherwise preview, ask for
confirmation, and only then write. -/
def writeJSXCode (jsxCode : String) (opts : WriteOptions)
    (ws? : Option (List String)) (confirm : Bool) (now : Nat)
    (fs : FsState) : Except WriteErr (Option (List String)) × FsState :=
  match ws? with
  | none => (Except.error WriteErr.noWorkspace, fs)
  | some ws =>
    let targetFolder := opts.targetFolder.getD Folder.components
    let targetDir := ws ++ [folderName targetFolder]
    let fs1 := if fsExists fs targetDir then fs else mkdirFs fs targetDir
    let fileName := resolveFileName opts.fileName
    let filePath := targetDir ++ [fileName]
    if fsExists fs1 filePath then
      let fs2 := if opts.showDiff ≠ some false then
          showDiffPreviewFs fs1 ws fileName now jsxCode
        else fs1
      (Except.error WriteErr.alreadyExists, fs2)
    else
      let fs2 := if opts.showDiff ≠ some false then
          showDiffPreviewNewFs fs1 ws fileName now jsxCode
        else fs1
      if confirm then
        (Except.ok (some filePath), writeFileFs fs2 filePath jsxCode)
      else
        (Except.ok none, fs2)

/-! ### Writer lemmas -/

theorem find?_cons_pos2 {α : Type} (f : α → Bool) (a : α) (l : List α)
    (h : f a = true) : (a :: l).find? f = some a :=
  List.find?_cons_of_pos l h

theorem find?_cons_neg2 {α : Type} (f : α → Bool) (a : α) (l : List α)
    (h : f a = false) : (a :: l).find? f = l.find? f :=
  List.find?_cons_of_neg l (by rw [h]; exact Bool.false_ne_true)

theorem find?_some2 {α : Type} (f : α → Bool) {a : α} {l : List α}
    (h : l.find? f = some a) : f a = true :=
  List.find?_some h

theorem find?_filter_ne (p q : List String) (hne : ¬ q = p) :
    ∀ (l : List (List String × String)),
      (l.filter (fun e => !(e.1 == q))).find? (fun e => e.1 == p)
        = l.find? (fun e => e.1 == p) := by
  intro l
  induction l with
  | nil => rfl
  | cons e l ih =>
    rw [List.filter_cons]
    by_cases hq : e.1 = q
    · have h1 : (!(e.1 == q)) = false := by rw [beq_iff_eq.mpr hq]; rfl
      rw [h1, if_neg (by decide : ¬ (false = true))]
      have hfalse : ¬ ((fun e : List String × String => e.1 == p) e = true) := by
        simp only [beq_iff_eq]
        rw [hq]
        exact hne
      have hfalse2 : (e.1 == p) = false := by
        cases hb : (e.1 == p)
        · rfl
        · exact absurd hb hfalse
      exact ih.trans (find?_cons_neg2 (fun e => e.1 == p) e l hfalse2).symm
    · have h1 : (!(e.1 == q)) = true := by rw [beq_eq_false_iff_ne.mpr hq]; rfl
      rw [h1, if_pos (by decide : (true = true))]
      by_cases hp : (e.1 == p) = true
      · rw [find?_cons_pos2 (fun e => e.1 == p) e _ hp,
          find?_cons_pos2 (fun e => e.1 == p) e l hp]
      · have hp2 : (e.1 == p) = false := by
          cases hb : (e.1 == p)
          · rfl
          · exact absurd hb hp
        rw [find?_cons_neg2 (fun e => e.1 == p) e _ hp2,
          find?_cons_neg2 (fun e => e.1 == p) e l hp2]
        exact ih

theorem lookupFile_write_ne (fs : FsState) (p q : List String) (c : String)
    (h : ¬ q = p) : lookupFile (writeFileFs fs q c) p = lookupFile fs p := by
  show (((q, c) :: fs.files.filter (fun e => !(e.1 == q))).find?
    (fun e => e.1 == p)).map (fun e => e.2) = _
  rw [find?_cons_neg2 (fun e => e.1 == p) (q, c) _
    (beq_eq_false_iff_ne.mpr h)]
  rw [find?_filter_ne p q h]
  rfl

theorem lookup_none_of_not_exists (fs : FsState) (p : List String)
    (h : fsExists fs p = false) : lookupFile fs p = none := by
  rw [fsExists, Bool.or_eq_false_iff] at h
  rw [lookupFile, List.find?_eq_none.mpr]
  · rfl
  · intro e he hpe
    have hany : fs.files.any (fun e => e.1 == p) = true :=
      List.any_eq_true.mpr ⟨e, he, hpe⟩
    rw [hany] at h
    exact Bool.noConfusion h.2

theorem any_true_of_lookup (fs : FsState) (p : List String) (c : String)
    (h : lookupFile fs p = some c) :
    fs.files.any (fun e => e.1 == p) = true := by
  rw [lookupFile] at h
  cases hf : fs.files.find? (fun e => e.1 == p) with
  | none => rw [hf] at h; cases h
  | some e =>
    have hpe := find?_some2 (fun e : List String × String => e.1 == p) hf
    exact List.any_eq_true.mpr ⟨e, List.mem_of_find?_eq_some hf, hpe⟩

theorem temp_path_ne (ws : List String) (f : Folder) (nm fn : String) :
    ¬ ((ws ++ [".figma-temp"]) ++ [nm] = (ws ++ [folderName f]) ++ [fn]) := by
  rw [List.append_assoc, List.append_assoc]
  intro h
  have h2 := List.append_cancel_left h
  rw [List.cons_append, List.nil_append, List.cons_append, List.nil_append,
    List.cons.injEq] at h2
  cases f
  · exact absurd h2.1 (by decide)
  · exact absurd h2.1 (by decide)

theorem dir_ne_file (ws : List String) (a b : String) :
    ¬ ((ws ++ [a] : List String) = (ws ++ [a]) ++ [b]) := by
  intro h
  have := congrArg List.length h
  simp at this

/-- C2: whenever the resolved destination path already holds a file,
`writeJSXCode` fails with the already-exists error — for every combination of
target-folder and diff options and regardless of the confirmation answer —
and the destination file's content is untouched. -/
theorem c2_never_overwrites (jsxCode : String) (opts : WriteOptions)
    (ws : List String) (confirm : Bool) (now : Nat) (fs : FsState) (c : String)
    (h : lookupFile fs
      ((ws ++ [folderName (opts.targetFolder.getD Folder.components)])
        ++ [resolveFileName opts.fileName]) = some c) :
    (writeJSXCode jsxCode opts (some ws) confirm now fs).1
      = Except.error WriteErr.alreadyExists ∧
    lookupFile (writeJSXCode jsxCode opts (some ws) confirm now fs).2
      ((ws ++ [folderName (opts.targetFolder.getD Folder.components)])
        ++ [resolveFileName opts.fileName]) = some c := by
  rw [writeJSXCode]
  set fld := opts.targetFolder.getD Folder.components with hfld
  set p := (ws ++ [folderName fld]) ++ [resolveFileName opts.fileName] with hp
  set fs1 := if fsExists fs (ws ++ [folderName fld]) then fs
    else mkdirFs fs (ws ++ [folderName fld]) with hfs1
  have hfiles1 : fs1.files = fs.files := by
    rw [hfs1]
    split <;> rfl
  have hlook1 : lookupFile fs1 p = some c := by
    show (fs1.files.find? (fun e => e.1 == p)).map (fun e => e.2) = some c
    rw [hfiles1]
    exact h
  have hex : fsExists fs1 p = true := by
    rw [fsExists, any_true_of_lookup fs1 p c hlook1, Bool.or_true]
  rw [if_pos hex]
  refine ⟨rfl, ?_⟩
  split
  · rw [showDiffPreviewFs]
    rw [lookupFile_write_ne _ _ _ _ (temp_path_ne ws fld _ _)]
    split
    · exact hlook1
    · exact hlook1
  · exact hlook1

theorem c2_witness :
    (writeJSXCode "new" ⟨"card", none, none⟩ (some ["w"]) true 3
      ⟨[(["w", "components", "card.tsx"], "old")], [["w", "components"]]⟩).1
      = Except.error WriteErr.alreadyExists ∧
    lookupFile ((writeJSXCode "new" ⟨"card", none, none⟩ (some ["w"]) true 3
      ⟨[(["w", "components", "card.tsx"], "old")], [["w", "components"]]⟩).2)
      ((["w"] ++ [folderName ((none : Option Folder).getD Folder.components)])
        ++ [resolveFileName "card"]) = some "old" :=
  c2_never_overwrites "new" ⟨"card", none, none⟩ ["w"] true 3
    ⟨[(["w", "components", "card.tsx"], "old")], [["w", "components"]]⟩ "old" rfl

/-- C9 counterexample: a cancelled invocation (user declines, path free) DOES
mutate the filesystem: starting from an empty workspace it creates the
`components` target directory, the `.figma-temp` scratch directory and two
scratch files — refuting "no file or directory in the project tree is
created or changed by the cancelled invocation". -/
theorem c9_counterexample :
    (writeJSXCode "x" ⟨"card", none, none⟩ (some ["w"]) false 0 ⟨[], []⟩).1
      = Except.ok none ∧
    lookupFile ((writeJSXCode "x" ⟨"card", none, none⟩ (some ["w"]) false 0
      ⟨[], []⟩).2) ["w", ".figma-temp", "temp-0-card.tsx"] = some "x" ∧
    (writeJSXCode "x" ⟨"card", none, none⟩ (some ["w"]) false 0 ⟨[], []⟩).2.dirs
      = [["w", ".figma-temp"], ["w", "components"]] ∧
    (⟨[], []⟩ : FsState).files = [] ∧ (⟨[], []⟩ : FsState).dirs = [] :=
  ⟨rfl, rfl, rfl, rfl, rfl⟩

/-- C9 (amended): when the resolved destination path does not exist and the
user declines the confirmation, `writeJSXCode` returns the cancelled result
(null), the destination file is never created, and the only filesystem
changes are auxiliary: any file difference lies under the `.figma-temp`
scratch directory, and any new directory is the target folder or the scratch
directory. -/
theorem c9_cancelled_write (jsxCode : String) (opts : WriteOptions)
    (ws : List String) (now : Nat) (fs : FsState)
    (hne : fsExists fs
      ((ws ++ [folderName (opts.targetFolder.getD Folder.components)])
        ++ [resolveFileName opts.fileName]) = false) :
    (writeJSXCode jsxCode opts (some ws) false now fs).1 = Except.ok none ∧
    lookupFile ((writeJSXCode jsxCode opts (some ws) false now fs).2)
      ((ws ++ [folderName (opts.targetFolder.getD Folder.components)])
        ++ [resolveFileName opts.fileName]) = none ∧
    (∀ q, lookupFile ((writeJSXCode jsxCode opts (some ws) false now fs).2) q
        ≠ lookupFile fs q → ∃ nm, q = (ws ++ [".figma-temp"]) ++ [nm]) ∧
    (∀ q, q ∈ (writeJSXCode jsxCode opts (some ws) false now fs).2.dirs →
      q ∈ fs.dirs ∨ q = ws ++ [folderName (opts.targetFolder.getD Folder.components)]
        ∨ q = ws ++ [".figma-temp"]) := by
  rw [writeJSXCode]
  set fld := opts.targetFolder.getD Folder.components with hfld
  set p := (ws ++ [folderName fld]) ++ [resolveFileName opts.fileName] with hp
  set fs1 := if fsExists fs (ws ++ [folderName fld]) then fs
    else mkdirFs fs (ws ++ [folderName fld]) with hfs1
  have hfiles1 : fs1.files = fs.files := by
    rw [hfs1]
    split <;> rfl
  have hlookany : ∀ q, lookupFile fs1 q = lookupFile fs q := by
    intro q
    show (fs1.files.find? (fun e => e.1 == q)).map (fun e => e.2) = _
    rw [hfiles1]
    rfl
  have hdirs1 : ∀ q, q ∈ fs1.dirs → q ∈ fs.dirs ∨ q = ws ++ [folderName fld] := by
    intro q hq
    rw [hfs1] at hq
    by_cases hcond : fsExists fs (ws ++ [folderName fld]) = true
    · rw [if_pos hcond] at hq
      exact Or.inl hq
    · rw [if_neg hcond] at hq
      rcases List.mem_cons.mp hq with h | h
      · exact Or.inr h
      · exact Or.inl h
  have hex1 : fsExists fs1 p = false := by
    rw [fsExists, Bool.or_eq_false_iff] at hne
    rw [hfs1]
    by_cases hcond : fsExists fs (ws ++ [folderName fld]) = true
    · rw [if_pos hcond, fsExists, hne.1, hne.2]
      rfl
    · rw [if_neg hcond, fsExists]
      show (((ws ++ [folderName fld]) :: fs.dirs).contains p
        || fs.files.any (fun e => e.1 == p)) = false
      rw [List.contains_cons]
      have hnb : (p == ws ++ [folderName fld]) = false := by
        rw [beq_eq_false_iff_ne]
        rw [hp]
        intro hh
        exact dir_ne_file ws (folderName fld) (resolveFileName opts.fileName) hh.symm
      rw [hnb, hne.1, hne.2]
      rfl
  have hlnone : lookupFile fs1 p = none := lookup_none_of_not_exists fs1 p hex1
  rw [if_neg (by rw [hex1]; simp)]
  dsimp only
  rw [if_neg (by simp : ¬ (false = true))]
  set fs2 := if opts.showDiff ≠ some false then
      showDiffPreviewNewFs fs1 ws (resolveFileName opts.fileName) now jsxCode
    else fs1 with hfs2
  refine ⟨rfl, ?_, ?_, ?_⟩
  · show lookupFile fs2 p = none
    rw [hfs2]
    split
    · rw [showDiffPreviewNewFs]
      rw [lookupFile_write_ne _ _ _ _ (temp_path_ne ws fld _ _)]
      rw [lookupFile_write_ne _ _ _ _ (temp_path_ne ws fld _ _)]
      rw [show lookupFile (if fsExists fs1 (ws ++ [".figma-temp"]) then fs1
          else mkdirFs fs1 (ws ++ [".figma-temp"])) p = lookupFile fs1 p from by
        split <;> rfl]
      exact hlnone
    · exact hlnone
  · intro q hq
    rw [hfs2] at hq
    by_cases hsd : opts.showDiff ≠ some false
    · rw [if_pos hsd, showDiffPreviewNewFs] at hq
      dsimp only at hq
      by_cases hq1 : q = (ws ++ [".figma-temp"]) ++
          ["empty-" ++ toString now ++ "-" ++ resolveFileName opts.fileName]
      · exact ⟨_, hq1⟩
      · by_cases hq2 : q = (ws ++ [".figma-temp"]) ++
            ["temp-" ++ toString now ++ "-" ++ resolveFileName opts.fileName]
        · exact ⟨_, hq2⟩
        · exfalso
          apply hq
          rw [lookupFile_write_ne _ _ _ _ (fun hh => hq1 hh.symm)]
          rw [lookupFile_write_ne _ _ _ _ (fun hh => hq2 hh.symm)]
          rw [show lookupFile (if fsExists fs1 (ws ++ [".figma-temp"]) then fs1
              else mkdirFs fs1 (ws ++ [".figma-temp"])) q = lookupFile fs1 q from by
            split <;> rfl]
          exact hlookany q
    · rw [if_neg hsd] at hq
      exact absurd (hlookany q) hq
  · intro q hq
    rw [hfs2] at hq
    by_cases hsd : opts.showDiff ≠ some false
    · rw [if_pos hsd, showDiffPreviewNewFs] at hq
      dsimp only at hq
      have hq1 : q ∈ (if fsExists fs1 (ws ++ [".figma-temp"]) then fs1
          else mkdirFs fs1 (ws ++ [".figma-temp"])).dirs := hq
      by_cases hcond : fsExists fs1 (ws ++ [".figma-temp"]) = true
      · rw [if_pos hcond] at hq1
        rcases hdirs1 q hq1 with h | h
        · exact Or.inl h
        · exact Or.inr (Or.inl h)
      · rw [if_neg hcond] at hq1
        rcases List.mem_cons.mp hq1 with h | h
        · exact Or.inr (Or.inr h)
        · rcases hdirs1 q h with h2 | h2
          · exact Or.inl h2
          · exact Or.inr (Or.inl h2)
    · rw [if_neg hsd] at hq
      rcases hdirs1 q hq with h | h
      · exact Or.inl h
      · exact Or.inr (Or.inl h)

theorem c9_witness :
    (writeJSXCode "x" ⟨"card", none, some false⟩ (some ["w"]) false 5
      ⟨[], [["w", "components"]]⟩).1 = Except.ok none ∧
    lookupFile ((writeJSXCode "x" ⟨"card", none, some false⟩ (some ["w"]) false 5
      ⟨[], [["w", "components"]]⟩).2)
      ((["w"] ++ [folderName ((none : Option Folder).getD Folder.components)])
        ++ [resolveFileName "card"]) = none :=
  ⟨(c9_cancelled_write "x" ⟨"card", none, some false⟩ ["w"] 5
      ⟨[], [["w", "components"]]⟩ rfl).1,
   (c9_cancelled_write "x" ⟨"card", none, some false⟩ ["w"] 5
      ⟨[], [["w", "components"]]⟩ rfl).2.1⟩
